import Mathlib

/-!
Verification of the TimeCheck backend's synchronization core (`app/main.py`,
`app/models.py`, `app/schemas.py`).

Timestamps (`datetime` values in the source) are modelled as natural numbers;
only their total order is used by the code. The SQLAlchemy session is modelled
as lists of records keyed by their `id` primary key (`db.get` becomes a
`find?` by id, in-place ORM mutation becomes a `map` that replaces the
matching record). Because `db.py` configures `autoflush=False` and `main.sync`
commits only once, after both loops, each table is split during a request
into persistent rows (visible to `db.get`) and pending rows (`db.add`ed,
invisible until the commit); see the session-state note before
`task_step_session`. `datetime.utcnow()` is modelled by an explicit `now`
parameter supplied to each request.

The `Task` and `TimeEntry` record types carry a `user_id` owner field.
Modelled from the spec: the owner column and the `User` table are absent from
the copy of `app/models.py` at hand (only `main.py`, their caller, shows
them); the spec's data model (§3) gives every Task/TimeEntry an "owner
reference" immutable after creation, which `main.py` reads and writes as
`user_id`.
-/

namespace TimeCheck

/-- `schemas.TaskPayload`. -/
structure TaskPayload where
  id : String
  title : String
  description : Option String
  created_at : Nat
  updated_at : Nat
  deleted_at : Option Nat
  client_updated_at : Nat
  deriving Repr, DecidableEq

/-- `schemas.TimeEntryPayload`. -/
structure TimeEntryPayload where
  id : String
  task_id : String
  started_at : Nat
  stopped_at : Option Nat
  comment : Option String
  created_at : Nat
  updated_at : Nat
  deleted_at : Option Nat
  client_updated_at : Nat
  deriving Repr, DecidableEq

/-- The `op` tag of a change (`Literal["upsert", "delete"]`). -/
inductive Op where
  | upsert
  | delete
  deriving Repr, DecidableEq

/-- `schemas.TaskChange` / `schemas.TimeEntryChange`: an op tag plus a
payload. The two Python classes have the same shape, so the payload type is
a parameter. -/
structure Change (π : Type) where
  op : Op
  data : π
  deriving Repr, DecidableEq

/-- `schemas.SyncChanges`. -/
structure SyncChanges where
  tasks : List (Change TaskPayload)
  time_entries : List (Change TimeEntryPayload)
  deriving Repr, DecidableEq

/-- `schemas.SyncRequest`. -/
structure SyncRequest where
  last_sync_at : Option Nat
  changes : SyncChanges
  deriving Repr, DecidableEq

/-- `schemas.SyncResponse`. -/
structure SyncResponse where
  server_time : Nat
  tasks : List TaskPayload
  time_entries : List TimeEntryPayload
  deriving Repr, DecidableEq

/-- `models.Task` row. `user_id` is the owner column (see header note). -/
structure Task where
  id : String
  user_id : String
  title : String
  description : Option String
  created_at : Nat
  updated_at : Nat
  deleted_at : Option Nat
  client_updated_at : Nat
  deriving Repr, DecidableEq

/-- `models.TimeEntry` row. `user_id` is the owner column (see header note). -/
structure TimeEntry where
  id : String
  user_id : String
  task_id : String
  started_at : Nat
  stopped_at : Option Nat
  comment : Option String
  created_at : Nat
  updated_at : Nat
  deleted_at : Option Nat
  client_updated_at : Nat
  deriving Repr, DecidableEq

/-- The two synced tables of the database. -/
structure Store where
  tasks : List Task
  time_entries : List TimeEntry
  deriving Repr, DecidableEq

/-- `db.get(Task, id)`: primary-key lookup. -/
def getTask (db : List Task) (k : String) : Option Task :=
  db.find? (fun t => t.id == k)

/-- `db.get(TimeEntry, id)`: primary-key lookup. -/
def getTimeEntry (db : List TimeEntry) (k : String) : Option TimeEntry :=
  db.find? (fun e => e.id == k)

/-- `main._should_apply(existing, incoming)`. -/
def should_apply (existing : Option Nat) (incoming : Nat) : Bool :=
  match existing with
  | none => true
  | some e => decide (incoming ≥ e)

/-- The field-assignment block of `main._apply_task` (lines 114-119): every
mutable field is overwritten from the payload, `updated_at` is stamped with
the server clock `now`. -/
def task_with_payload (now : Nat) (p : TaskPayload) (t : Task) : Task :=
  { t with
    title := p.title
    description := p.description
    created_at := p.created_at
    updated_at := now
    deleted_at := p.deleted_at
    client_updated_at := p.client_updated_at }

/-- `Task(id=payload.id, user_id=user.id)`: the bare row constructed in the
create branch of `_apply_task`; its remaining fields are unset in Python and
are immediately overwritten by `task_with_payload`, so the placeholder values
here are never observable. -/
def init_task (k uid : String) : Task :=
  { id := k, user_id := uid, title := "", description := none,
    created_at := 0, updated_at := 0, deleted_at := none,
    client_updated_at := 0 }

/-- `main._apply_task`. -/
def apply_task (now : Nat) (db : List Task) (uid : String) (p : TaskPayload) :
    List Task :=
  match getTask db p.id with
  | none =>
      if should_apply none p.client_updated_at
      then db ++ [task_with_payload now p (init_task p.id uid)]
      else db
  | some task =>
      if task.user_id ≠ uid then db
      else if should_apply (some task.client_updated_at) p.client_updated_at
      then db.map (fun t => if t.id == p.id then task_with_payload now p t else t)
      else db

/-- The field-assignment block of `main._apply_time_entry` (lines 136-143). -/
def entry_with_payload (now : Nat) (p : TimeEntryPayload) (e : TimeEntry) :
    TimeEntry :=
  { e with
    task_id := p.task_id
    started_at := p.started_at
    stopped_at := p.stopped_at
    comment := p.comment
    created_at := p.created_at
    updated_at := now
    deleted_at := p.deleted_at
    client_updated_at := p.client_updated_at }

/-- `TimeEntry(id=payload.id, user_id=user.id)`: the bare row of the create
branch of `_apply_time_entry`; as for `init_task`, the placeholder fields are
immediately overwritten. -/
def init_entry (k uid : String) : TimeEntry :=
  { id := k, user_id := uid, task_id := "", started_at := 0,
    stopped_at := none, comment := none, created_at := 0, updated_at := 0,
    deleted_at := none, client_updated_at := 0 }

/-- `main._apply_time_entry`. The `tasks` table is read (to resolve the
referenced task in the create branch) but never written. -/
def apply_time_entry (now : Nat) (tasks : List Task) (es : List TimeEntry)
    (uid : String) (p : TimeEntryPayload) : List TimeEntry :=
  match getTimeEntry es p.id with
  | none =>
      match getTask tasks p.task_id with
      | none => es
      | some task =>
          if task.user_id ≠ uid then es
          else if should_apply none p.client_updated_at
          then es ++ [entry_with_payload now p (init_entry p.id uid)]
          else es
  | some entry =>
      if entry.user_id ≠ uid then es
      else if should_apply (some entry.client_updated_at) p.client_updated_at
      then es.map (fun e => if e.id == p.id then entry_with_payload now p e else e)
      else es

/-- One iteration of the loop in `main._collapse_changes`: the Python dict
`latest` is modelled as an association list that preserves first-insertion
order of keys (overwriting a key keeps its position, as a Python dict does). -/
def collapse_step {α : Type} (key : α → String) (rev : α → Nat)
    (latest : List (String × α)) (change : α) : List (String × α) :=
  match latest.find? (fun kv => kv.1 == key change) with
  | none => latest ++ [(key change, change)]
  | some kv =>
      if rev change ≥ rev kv.2
      then latest.map (fun kv2 => if kv2.1 == key change then (kv2.1, change) else kv2)
      else latest

/-- `main._collapse_changes`. The Python function is duck-typed over
`change.data.id` and `change.data.client_updated_at`; here those two
projections are parameters. -/
def collapse_changes {α : Type} (key : α → String) (rev : α → Nat)
    (changes : List α) : List α :=
  (changes.foldl (collapse_step key rev) []).map Prod.snd

/-- The watermark filter of `main.sync` (lines 215-217): with no watermark
every row passes; with watermark `x` a row passes iff `updated_at ≥ x`. -/
def in_watermark (w : Option Nat) (u : Nat) : Bool :=
  match w with
  | none => true
  | some x => decide (u ≥ x)

/-- The `TaskPayload(...)` constructed for each outgoing task
(`main.sync` lines 225-233). -/
def task_to_payload (t : Task) : TaskPayload :=
  { id := t.id, title := t.title, description := t.description,
    created_at := t.created_at, updated_at := t.updated_at,
    deleted_at := t.deleted_at, client_updated_at := t.client_updated_at }

/-- The `TimeEntryPayload(...)` constructed for each outgoing entry
(`main.sync` lines 237-247). -/
def entry_to_payload (e : TimeEntry) : TimeEntryPayload :=
  { id := e.id, task_id := e.task_id, started_at := e.started_at,
    stopped_at := e.stopped_at, comment := e.comment,
    created_at := e.created_at, updated_at := e.updated_at,
    deleted_at := e.deleted_at, client_updated_at := e.client_updated_at }

/-!
The session state during one request. `db.py` builds sessions with
`autoflush=False`, `main.sync` contains no `flush()`, and the only
`commit()` is at line 210, after both loops. A row created by
`db.add(...)` is therefore *pending* for the whole request: it is neither
in the identity map nor in the database, so `db.get` cannot return it. A
row fetched by `db.get` is *persistent* and in the identity map, so its
in-place mutations are seen by later `db.get` calls of the same request.
Each table is modelled as a pair: persistent rows (visible to `get`) and
pending rows (invisible until the commit appends them).
-/

/-- One iteration of the task loop of `main.sync` (line 205) on the session
state `st = (persistent, pending)`: `_apply_task` looks the payload's id up
among the persistent rows only, mutates a persistent row in place on an
accepted update, and `db.add`s a pending row on a create. -/
def task_step_session (now : Nat) (uid : String) (st : List Task × List Task)
    (p : TaskPayload) : List Task × List Task :=
  match getTask st.1 p.id with
  | none =>
      if should_apply none p.client_updated_at
      then (st.1, st.2 ++ [task_with_payload now p (init_task p.id uid)])
      else st
  | some task =>
      if task.user_id ≠ uid then st
      else if should_apply (some task.client_updated_at) p.client_updated_at
      then (st.1.map (fun t => if t.id == p.id then task_with_payload now p t else t),
        st.2)
      else st

/-- One iteration of the time-entry loop of `main.sync` (line 208) on the
session state: as `task_step_session`, and the referenced task of the create
branch (`main.py` line 125) is resolved among the *persistent* task rows
`ts` — a task added by this very request is pending and invisible to
`db.get`. -/
def entry_step_session (now : Nat) (uid : String) (ts : List Task)
    (st : List TimeEntry × List TimeEntry) (p : TimeEntryPayload) :
    List TimeEntry × List TimeEntry :=
  match getTimeEntry st.1 p.id with
  | none =>
      match getTask ts p.task_id with
      | none => st
      | some task =>
          if task.user_id ≠ uid then st
          else if should_apply none p.client_updated_at
          then (st.1, st.2 ++ [entry_with_payload now p (init_entry p.id uid)])
          else st
  | some entry =>
      if entry.user_id ≠ uid then st
      else if should_apply (some entry.client_updated_at) p.client_updated_at
      then (st.1.map (fun e => if e.id == p.id then entry_with_payload now p e else e),
        st.2)
      else st

/-- The task loop of `main.sync` (lines 204-205) on the session state:
collapse the batch's task changes, then run each through
`task_step_session`, starting with no pending rows. -/
def sync_tasks_session (now : Nat) (db : List Task) (uid : String)
    (changes : List (Change TaskPayload)) : List Task × List Task :=
  (collapse_changes (fun c => c.data.id) (fun c => c.data.client_updated_at)
    changes).foldl (fun st c => task_step_session now uid st c.data) (db, [])

/-- The time-entry loop of `main.sync` (lines 207-208) on the session state;
`ts` is the persistent task table as left by the task loop. -/
def sync_entries_session (now : Nat) (ts : List Task) (es : List TimeEntry)
    (uid : String) (changes : List (Change TimeEntryPayload)) :
    List TimeEntry × List TimeEntry :=
  (collapse_changes (fun c => c.data.id) (fun c => c.data.client_updated_at)
    changes).foldl (fun st c => entry_step_session now uid ts st c.data) (es, [])

/-- The collapsed task batch applied as whole-table updates (each change
either appends its row or rewrites the matching row in place). By
`sync_tasks_session_combined` this equals the rows the task loop leaves
committed; it is also the task phase of the spec-modelled `sync_spec`. -/
def sync_tasks (now : Nat) (db : List Task) (uid : String)
    (changes : List (Change TaskPayload)) : List Task :=
  (collapse_changes (fun c => c.data.id) (fun c => c.data.client_updated_at)
    changes).foldl (fun db c => apply_task now db uid c.data) db

/-- Whole-table form of the time-entry batch against a fixed task table
`ts`; equals the committed result of the entry loop run with `ts` as the
persistent task rows (`sync_entries_session_combined`). -/
def sync_entries (now : Nat) (ts : List Task) (es : List TimeEntry)
    (uid : String) (changes : List (Change TimeEntryPayload)) : List TimeEntry :=
  (collapse_changes (fun c => c.data.id) (fun c => c.data.client_updated_at)
    changes).foldl (fun es c => apply_time_entry now ts es uid c.data) es

/-- `main.sync` (the authenticated `/sync` handler): collapse and apply all
task changes, then all time-entry changes — whose create branch resolves
tasks among the *persistent* task rows only, since rows added by this
request are unflushed (`autoflush=False`, commit only at line 210) — then
commit (pending rows join the tables) and compute the outgoing delta of the
caller's rows passing the watermark, from the committed store. -/
def sync (now : Nat) (store : Store) (uid : String) (req : SyncRequest) :
    Store × SyncResponse :=
  let tst := sync_tasks_session now store.tasks uid req.changes.tasks
  let est := sync_entries_session now tst.1 store.time_entries uid
    req.changes.time_entries
  let tasks1 := tst.1 ++ tst.2
  let entries1 := est.1 ++ est.2
  let outTasks := tasks1.filter
    (fun t => t.user_id == uid && in_watermark req.last_sync_at t.updated_at)
  let outEntries := entries1.filter
    (fun e => e.user_id == uid && in_watermark req.last_sync_at e.updated_at)
  (⟨tasks1, entries1⟩,
   ⟨now, outTasks.map task_to_payload, outEntries.map entry_to_payload⟩)

/-- `sync` with its `let` bindings laid out, for rewriting. -/
theorem sync_def (now : Nat) (store : Store) (uid : String) (req : SyncRequest) :
    sync now store uid req =
      (⟨(sync_tasks_session now store.tasks uid req.changes.tasks).1 ++
          (sync_tasks_session now store.tasks uid req.changes.tasks).2,
        (sync_entries_session now
            (sync_tasks_session now store.tasks uid req.changes.tasks).1
            store.time_entries uid req.changes.time_entries).1 ++
          (sync_entries_session now
            (sync_tasks_session now store.tasks uid req.changes.tasks).1
            store.time_entries uid req.changes.time_entries).2⟩,
       ⟨now,
        (((sync_tasks_session now store.tasks uid req.changes.tasks).1 ++
          (sync_tasks_session now store.tasks uid req.changes.tasks).2).filter
          (fun t => t.user_id == uid &&
            in_watermark req.last_sync_at t.updated_at)).map task_to_payload,
        (((sync_entries_session now
            (sync_tasks_session now store.tasks uid req.changes.tasks).1
            store.time_entries uid req.changes.time_entries).1 ++
          (sync_entries_session now
            (sync_tasks_session now store.tasks uid req.changes.tasks).1
            store.time_entries uid req.changes.time_entries).2).filter
          (fun e => e.user_id == uid &&
            in_watermark req.last_sync_at e.updated_at)).map entry_to_payload⟩) :=
  rfl

/-- Modelled from the spec: `sync` as §4.3 intends it — step 2 ("a TimeEntry
referencing a Task newly created earlier in the *same* batch must see that
Task, so Tasks are always processed first") and §5's read-your-writes
assumption give the entry phase the full post-task-phase table, same-request
creations included. The code does not deliver this: with `autoflush=False`
and no flush before the commit at `main.py` line 210, `db.get` cannot see
the rows this request added. -/
def sync_spec (now : Nat) (store : Store) (uid : String) (req : SyncRequest) :
    Store × SyncResponse :=
  let tasks1 := sync_tasks now store.tasks uid req.changes.tasks
  let entries1 := sync_entries now tasks1 store.time_entries uid
    req.changes.time_entries
  let outTasks := tasks1.filter
    (fun t => t.user_id == uid && in_watermark req.last_sync_at t.updated_at)
  let outEntries := entries1.filter
    (fun e => e.user_id == uid && in_watermark req.last_sync_at e.updated_at)
  (⟨tasks1, entries1⟩,
   ⟨now, outTasks.map task_to_payload, outEntries.map entry_to_payload⟩)

/-- Well-formedness of a table: primary keys are unique. -/
def TasksWF (db : List Task) : Prop := (db.map Task.id).Nodup

/-- Well-formedness of the entry table: primary keys are unique. -/
def EntriesWF (es : List TimeEntry) : Prop := (es.map TimeEntry.id).Nodup

/-- Well-formedness of the store: unique primary keys in both tables. -/
def StoreWF (s : Store) : Prop := TasksWF s.tasks ∧ EntriesWF s.time_entries

/-- The watermark bound as a proposition: `w` is absent or at most `u`. -/
def wmOk (w : Option Nat) (u : Nat) : Prop := ∀ x, w = some x → x ≤ u

instance (w : Option Nat) (u : Nat) : Decidable (wmOk w u) := by
  unfold wmOk
  cases w with
  | none => exact isTrue (by intro x h; cases h)
  | some x =>
      exact decidable_of_iff (x ≤ u)
        ⟨fun h y hy => by cases hy; exact h, fun h => h x rfl⟩

/-! ### Primary-key lookup lemmas -/

theorem getTask_id {db : List Task} {k : String} {t : Task}
    (h : getTask db k = some t) : t.id = k := by
  have := List.find?_some h
  simpa using this

theorem getTask_mem {db : List Task} {k : String} {t : Task}
    (h : getTask db k = some t) : t ∈ db :=
  List.mem_of_find?_eq_some h

theorem getTask_eq_none {db : List Task} {k : String} :
    getTask db k = none ↔ ∀ t ∈ db, t.id ≠ k := by
  simp [getTask, List.find?_eq_none]

theorem getTask_map {db : List Task} {g : Task → Task}
    (hid : ∀ t, (g t).id = t.id) (k : String) :
    getTask (db.map g) k = (getTask db k).map g := by
  have hp : ((fun t : Task => t.id == k) ∘ g) = (fun t : Task => t.id == k) :=
    funext fun t => by simp [Function.comp, hid]
  simp only [getTask]
  rw [List.find?_map, hp]

theorem getTask_append {db₁ db₂ : List Task} {k : String} :
    getTask (db₁ ++ db₂) k = (getTask db₁ k).or (getTask db₂ k) :=
  List.find?_append

theorem getTimeEntry_id {es : List TimeEntry} {k : String} {e : TimeEntry}
    (h : getTimeEntry es k = some e) : e.id = k := by
  have := List.find?_some h
  simpa using this

theorem getTimeEntry_mem {es : List TimeEntry} {k : String} {e : TimeEntry}
    (h : getTimeEntry es k = some e) : e ∈ es :=
  List.mem_of_find?_eq_some h

theorem getTimeEntry_eq_none {es : List TimeEntry} {k : String} :
    getTimeEntry es k = none ↔ ∀ e ∈ es, e.id ≠ k := by
  simp [getTimeEntry, List.find?_eq_none]

theorem getTimeEntry_map {es : List TimeEntry} {g : TimeEntry → TimeEntry}
    (hid : ∀ e, (g e).id = e.id) (k : String) :
    getTimeEntry (es.map g) k = (getTimeEntry es k).map g := by
  have hp : ((fun e : TimeEntry => e.id == k) ∘ g) = (fun e : TimeEntry => e.id == k) :=
    funext fun e => by simp [Function.comp, hid]
  simp only [getTimeEntry]
  rw [List.find?_map, hp]

theorem getTimeEntry_append {es₁ es₂ : List TimeEntry} {k : String} :
    getTimeEntry (es₁ ++ es₂) k = (getTimeEntry es₁ k).or (getTimeEntry es₂ k) :=
  List.find?_append

/-! ### Branch equations for the appliers -/

theorem apply_task_create {now : Nat} {db : List Task} {uid : String}
    {p : TaskPayload} (h : getTask db p.id = none) :
    apply_task now db uid p = db ++ [task_with_payload now p (init_task p.id uid)] := by
  unfold apply_task
  rw [h]
  rfl

theorem apply_task_skip_owner {now : Nat} {db : List Task} {uid : String}
    {p : TaskPayload} {task : Task} (h : getTask db p.id = some task)
    (ho : task.user_id ≠ uid) : apply_task now db uid p = db := by
  unfold apply_task
  rw [h]
  simp [ho]

theorem apply_task_skip_stale {now : Nat} {db : List Task} {uid : String}
    {p : TaskPayload} {task : Task} (h : getTask db p.id = some task)
    (ho : task.user_id = uid)
    (hs : p.client_updated_at < task.client_updated_at) :
    apply_task now db uid p = db := by
  unfold apply_task
  rw [h]
  simp [ho, should_apply]
  omega

theorem apply_task_applies {now : Nat} {db : List Task} {uid : String}
    {p : TaskPayload} {task : Task} (h : getTask db p.id = some task)
    (ho : task.user_id = uid)
    (hs : task.client_updated_at ≤ p.client_updated_at) :
    apply_task now db uid p =
      db.map (fun t => if t.id == p.id then task_with_payload now p t else t) := by
  unfold apply_task
  rw [h]
  simp [ho, should_apply, hs]

theorem apply_entry_orphan_none {now : Nat} {ts : List Task}
    {es : List TimeEntry} {uid : String} {p : TimeEntryPayload}
    (he : getTimeEntry es p.id = none) (ht : getTask ts p.task_id = none) :
    apply_time_entry now ts es uid p = es := by
  unfold apply_time_entry
  rw [he, ht]

theorem apply_entry_orphan_owner {now : Nat} {ts : List Task}
    {es : List TimeEntry} {uid : String} {p : TimeEntryPayload} {task : Task}
    (he : getTimeEntry es p.id = none) (ht : getTask ts p.task_id = some task)
    (ho : task.user_id ≠ uid) :
    apply_time_entry now ts es uid p = es := by
  unfold apply_time_entry
  rw [he, ht]
  simp [ho]

theorem apply_entry_create {now : Nat} {ts : List Task}
    {es : List TimeEntry} {uid : String} {p : TimeEntryPayload} {task : Task}
    (he : getTimeEntry es p.id = none) (ht : getTask ts p.task_id = some task)
    (ho : task.user_id = uid) :
    apply_time_entry now ts es uid p =
      es ++ [entry_with_payload now p (init_entry p.id uid)] := by
  unfold apply_time_entry
  rw [he, ht]
  simp [ho, should_apply]

theorem apply_entry_skip_owner {now : Nat} {ts : List Task}
    {es : List TimeEntry} {uid : String} {p : TimeEntryPayload} {entry : TimeEntry}
    (he : getTimeEntry es p.id = some entry) (ho : entry.user_id ≠ uid) :
    apply_time_entry now ts es uid p = es := by
  unfold apply_time_entry
  rw [he]
  simp [ho]

theorem apply_entry_skip_stale {now : Nat} {ts : List Task}
    {es : List TimeEntry} {uid : String} {p : TimeEntryPayload} {entry : TimeEntry}
    (he : getTimeEntry es p.id = some entry) (ho : entry.user_id = uid)
    (hs : p.client_updated_at < entry.client_updated_at) :
    apply_time_entry now ts es uid p = es := by
  unfold apply_time_entry
  rw [he]
  simp [ho, should_apply]
  omega

theorem apply_entry_applies {now : Nat} {ts : List Task}
    {es : List TimeEntry} {uid : String} {p : TimeEntryPayload} {entry : TimeEntry}
    (he : getTimeEntry es p.id = some entry) (ho : entry.user_id = uid)
    (hs : entry.client_updated_at ≤ p.client_updated_at) :
    apply_time_entry now ts es uid p =
      es.map (fun e => if e.id == p.id then entry_with_payload now p e else e) := by
  unfold apply_time_entry
  rw [he]
  simp [ho, should_apply, hs]

/-! ### Branch equations for the session steps -/

theorem task_step_create {now : Nat} {uid : String} {st : List Task × List Task}
    {p : TaskPayload} (h : getTask st.1 p.id = none) :
    task_step_session now uid st p =
      (st.1, st.2 ++ [task_with_payload now p (init_task p.id uid)]) := by
  unfold task_step_session
  rw [h]
  rfl

theorem task_step_skip_owner {now : Nat} {uid : String}
    {st : List Task × List Task} {p : TaskPayload} {task : Task}
    (h : getTask st.1 p.id = some task) (ho : task.user_id ≠ uid) :
    task_step_session now uid st p = st := by
  unfold task_step_session
  rw [h]
  simp [ho]

theorem task_step_skip_stale {now : Nat} {uid : String}
    {st : List Task × List Task} {p : TaskPayload} {task : Task}
    (h : getTask st.1 p.id = some task) (ho : task.user_id = uid)
    (hs : p.client_updated_at < task.client_updated_at) :
    task_step_session now uid st p = st := by
  unfold task_step_session
  rw [h]
  simp [ho, should_apply]
  omega

theorem task_step_applies {now : Nat} {uid : String}
    {st : List Task × List Task} {p : TaskPayload} {task : Task}
    (h : getTask st.1 p.id = some task) (ho : task.user_id = uid)
    (hs : task.client_updated_at ≤ p.client_updated_at) :
    task_step_session now uid st p =
      (st.1.map (fun t => if t.id == p.id then task_with_payload now p t else t),
        st.2) := by
  unfold task_step_session
  rw [h]
  simp [ho, should_apply, hs]

theorem entry_step_orphan_none {now : Nat} {uid : String} {ts : List Task}
    {st : List TimeEntry × List TimeEntry} {p : TimeEntryPayload}
    (he : getTimeEntry st.1 p.id = none) (ht : getTask ts p.task_id = none) :
    entry_step_session now uid ts st p = st := by
  unfold entry_step_session
  rw [he, ht]

theorem entry_step_orphan_owner {now : Nat} {uid : String} {ts : List Task}
    {st : List TimeEntry × List TimeEntry} {p : TimeEntryPayload} {task : Task}
    (he : getTimeEntry st.1 p.id = none) (ht : getTask ts p.task_id = some task)
    (ho : task.user_id ≠ uid) : entry_step_session now uid ts st p = st := by
  unfold entry_step_session
  rw [he, ht]
  simp [ho]

theorem entry_step_create {now : Nat} {uid : String} {ts : List Task}
    {st : List TimeEntry × List TimeEntry} {p : TimeEntryPayload} {task : Task}
    (he : getTimeEntry st.1 p.id = none) (ht : getTask ts p.task_id = some task)
    (ho : task.user_id = uid) :
    entry_step_session now uid ts st p =
      (st.1, st.2 ++ [entry_with_payload now p (init_entry p.id uid)]) := by
  unfold entry_step_session
  rw [he, ht]
  simp [ho, should_apply]

theorem entry_step_skip_owner {now : Nat} {uid : String} {ts : List Task}
    {st : List TimeEntry × List TimeEntry} {p : TimeEntryPayload}
    {entry : TimeEntry} (he : getTimeEntry st.1 p.id = some entry)
    (ho : entry.user_id ≠ uid) : entry_step_session now uid ts st p = st := by
  unfold entry_step_session
  rw [he]
  simp [ho]

theorem entry_step_skip_stale {now : Nat} {uid : String} {ts : List Task}
    {st : List TimeEntry × List TimeEntry} {p : TimeEntryPayload}
    {entry : TimeEntry} (he : getTimeEntry st.1 p.id = some entry)
    (ho : entry.user_id = uid)
    (hs : p.client_updated_at < entry.client_updated_at) :
    entry_step_session now uid ts st p = st := by
  unfold entry_step_session
  rw [he]
  simp [ho, should_apply]
  omega

theorem entry_step_applies {now : Nat} {uid : String} {ts : List Task}
    {st : List TimeEntry × List TimeEntry} {p : TimeEntryPayload}
    {entry : TimeEntry} (he : getTimeEntry st.1 p.id = some entry)
    (ho : entry.user_id = uid)
    (hs : entry.client_updated_at ≤ p.client_updated_at) :
    entry_step_session now uid ts st p =
      (st.1.map (fun e => if e.id == p.id then entry_with_payload now p e else e),
        st.2) := by
  unfold entry_step_session
  rw [he]
  simp [ho, should_apply, hs]

/-- C1: For every incoming change and stored record with the same identifier
and the same owner, the Change Applier applies the incoming payload iff the
stored record is absent or the incoming client revision time is ≥ the stored
record's client revision time; an exact tie applies (incoming wins ties). -/
theorem change_applier_last_writer_wins (now : Nat) (db : List Task)
    (uid : String) (p : TaskPayload) :
    (getTask db p.id = none →
      apply_task now db uid p = db ++ [task_with_payload now p (init_task p.id uid)]) ∧
    (∀ task, getTask db p.id = some task → task.user_id = uid →
      apply_task now db uid p =
        if task.client_updated_at ≤ p.client_updated_at
        then db.map (fun t => if t.id == p.id then task_with_payload now p t else t)
        else db) ∧
    (∀ e r, should_apply (some e) r = true ↔ e ≤ r) ∧
    (∀ r, should_apply none r = true) := by
  refine ⟨fun h => apply_task_create h, fun task h ho => ?_, fun e r => by
    simp [should_apply], fun r => rfl⟩
  by_cases hs : task.client_updated_at ≤ p.client_updated_at
  · rw [if_pos hs]
    exact apply_task_applies h ho hs
  · rw [if_neg hs]
    exact apply_task_skip_stale h ho (by omega)

/-- Witness for C1 at a concrete store: a tie in revision time (stored 5,
incoming 5) applies the incoming payload. -/
theorem change_applier_last_writer_wins_witness :
    apply_task 7 [⟨"a", "u", "old", none, 0, 0, none, 5⟩] "u"
        ⟨"a", "new", none, 1, 2, none, 5⟩ =
      if (5 : Nat) ≤ 5
      then [Task.mk "a" "u" "old" none 0 0 none 5].map
        (fun t => if t.id == "a" then
          task_with_payload 7 ⟨"a", "new", none, 1, 2, none, 5⟩ t else t)
      else [⟨"a", "u", "old", none, 0, 0, none, 5⟩] :=
  (change_applier_last_writer_wins 7 [⟨"a", "u", "old", none, 0, 0, none, 5⟩]
    "u" ⟨"a", "new", none, 1, 2, none, 5⟩).2.1
    ⟨"a", "u", "old", none, 0, 0, none, 5⟩ (by decide) rfl

/-! ### The record stored after a winning apply -/

theorem task_update_id (now : Nat) (p : TaskPayload) (t : Task) :
    (if t.id == p.id then task_with_payload now p t else t).id = t.id := by
  by_cases h : t.id == p.id <;> simp [h, task_with_payload]

theorem entry_update_id (now : Nat) (p : TimeEntryPayload) (e : TimeEntry) :
    (if e.id == p.id then entry_with_payload now p e else e).id = e.id := by
  by_cases h : e.id == p.id <;> simp [h, entry_with_payload]

theorem getTask_after_applies {now : Nat} {db : List Task} {uid : String}
    {p : TaskPayload} {task : Task} (h : getTask db p.id = some task)
    (ho : task.user_id = uid)
    (hs : task.client_updated_at ≤ p.client_updated_at) :
    getTask (apply_task now db uid p) p.id = some (task_with_payload now p task) := by
  rw [apply_task_applies h ho hs, getTask_map (task_update_id now p), h]
  simp [getTask_id h]

theorem getTimeEntry_after_applies {now : Nat} {ts : List Task}
    {es : List TimeEntry} {uid : String} {p : TimeEntryPayload} {entry : TimeEntry}
    (h : getTimeEntry es p.id = some entry) (ho : entry.user_id = uid)
    (hs : entry.client_updated_at ≤ p.client_updated_at) :
    getTimeEntry (apply_time_entry now ts es uid p) p.id =
      some (entry_with_payload now p entry) := by
  rw [apply_entry_applies h ho hs, getTimeEntry_map (entry_update_id now p), h]
  simp [getTimeEntry_id h]

/-- C5: a TimeEntry payload whose identifier is not stored and whose
referenced Task does not exist or is owned by another principal creates no
record and mutates nothing; a sync request carrying (only) such a change has
the same effect and response as one carrying no change at all — the request
proceeds normally, with no error surfaced. -/
theorem orphan_time_entry_rejected (now : Nat) (store : Store) (uid : String)
    (p : TimeEntryPayload) (op : Op) (w : Option Nat)
    (habsent : getTimeEntry store.time_entries p.id = none)
    (horphan : ∀ task, getTask store.tasks p.task_id = some task → task.user_id ≠ uid) :
    apply_time_entry now store.tasks store.time_entries uid p = store.time_entries ∧
    sync now store uid ⟨w, ⟨[], [⟨op, p⟩]⟩⟩ = sync now store uid ⟨w, ⟨[], []⟩⟩ := by
  have happly : apply_time_entry now store.tasks store.time_entries uid p =
      store.time_entries := by
    cases ht : getTask store.tasks p.task_id with
    | none => exact apply_entry_orphan_none habsent ht
    | some task => exact apply_entry_orphan_owner habsent ht (horphan task ht)
  have hstep : entry_step_session now uid store.tasks
      (store.time_entries, ([] : List TimeEntry)) p =
      (store.time_entries, []) := by
    cases ht : getTask store.tasks p.task_id with
    | none => exact entry_step_orphan_none habsent ht
    | some task => exact entry_step_orphan_owner habsent ht (horphan task ht)
  refine ⟨happly, ?_⟩
  simp [sync, sync_tasks_session, sync_entries_session, collapse_changes,
    collapse_step, hstep]

/-- Witness for C5: an entry payload referencing the absent task `"tX"` in a
one-task store leaves the store untouched and the sync unaffected. -/
theorem orphan_time_entry_rejected_witness :
    apply_time_entry 10 [⟨"t1", "u", "A", none, 1, 1, none, 5⟩] [] "u"
        ⟨"e1", "tX", 100, none, none, 1, 1, none, 5⟩ = [] ∧
    sync 10 ⟨[⟨"t1", "u", "A", none, 1, 1, none, 5⟩], []⟩ "u"
        ⟨some 0, ⟨[], [⟨Op.upsert, ⟨"e1", "tX", 100, none, none, 1, 1, none, 5⟩⟩]⟩⟩ =
      sync 10 ⟨[⟨"t1", "u", "A", none, 1, 1, none, 5⟩], []⟩ "u" ⟨some 0, ⟨[], []⟩⟩ :=
  orphan_time_entry_rejected 10 ⟨[⟨"t1", "u", "A", none, 1, 1, none, 5⟩], []⟩ "u"
    ⟨"e1", "tX", 100, none, none, 1, 1, none, 5⟩ Op.upsert (some 0)
    (by decide) (by decide)

/-- C7: when a change wins, every mutable field of the stored record —
including `deleted_at` and `client_updated_at` — is overwritten verbatim from
the payload and `updated_at` is stamped with the server clock `now`; when a
change is skipped (unauthorized owner or stale revision) the table is
returned unchanged, for tasks and time entries alike. -/
theorem apply_overwrites_verbatim_skip_frames (now : Nat) (db : List Task)
    (ts : List Task) (es : List TimeEntry) (uid : String) (p : TaskPayload)
    (q : TimeEntryPayload) :
    (∀ task, getTask db p.id = some task → task.user_id = uid →
      task.client_updated_at ≤ p.client_updated_at →
      ∃ t', getTask (apply_task now db uid p) p.id = some t' ∧
        t'.title = p.title ∧ t'.description = p.description ∧
        t'.created_at = p.created_at ∧ t'.deleted_at = p.deleted_at ∧
        t'.client_updated_at = p.client_updated_at ∧ t'.updated_at = now ∧
        t'.id = task.id ∧ t'.user_id = task.user_id) ∧
    (∀ task, getTask db p.id = some task → task.user_id ≠ uid →
      apply_task now db uid p = db) ∧
    (∀ task, getTask db p.id = some task → task.user_id = uid →
      p.client_updated_at < task.client_updated_at →
      apply_task now db uid p = db) ∧
    (∀ entry, getTimeEntry es q.id = some entry → entry.user_id = uid →
      entry.client_updated_at ≤ q.client_updated_at →
      ∃ e', getTimeEntry (apply_time_entry now ts es uid q) q.id = some e' ∧
        e'.task_id = q.task_id ∧ e'.started_at = q.started_at ∧
        e'.stopped_at = q.stopped_at ∧ e'.comment = q.comment ∧
        e'.created_at = q.created_at ∧ e'.deleted_at = q.deleted_at ∧
        e'.client_updated_at = q.client_updated_at ∧ e'.updated_at = now ∧
        e'.id = entry.id ∧ e'.user_id = entry.user_id) ∧
    (∀ entry, getTimeEntry es q.id = some entry → entry.user_id ≠ uid →
      apply_time_entry now ts es uid q = es) ∧
    (∀ entry, getTimeEntry es q.id = some entry → entry.user_id = uid →
      q.client_updated_at < entry.client_updated_at →
      apply_time_entry now ts es uid q = es) := by
  refine ⟨fun task h ho hs => ?_, fun task h ho => apply_task_skip_owner h ho,
    fun task h ho hs => apply_task_skip_stale h ho hs,
    fun entry h ho hs => ?_, fun entry h ho => apply_entry_skip_owner h ho,
    fun entry h ho hs => apply_entry_skip_stale h ho hs⟩
  · exact ⟨task_with_payload now p task, getTask_after_applies h ho hs,
      rfl, rfl, rfl, rfl, rfl, rfl, rfl, rfl⟩
  · exact ⟨entry_with_payload now q entry, getTimeEntry_after_applies h ho hs,
      rfl, rfl, rfl, rfl, rfl, rfl, rfl, rfl, rfl, rfl⟩

/-- Witness for C7: a winning payload that both resurrects nothing and sets a
tombstone — `deleted_at` and `client_updated_at` land verbatim, `updated_at`
becomes the server clock 9. -/
theorem apply_overwrites_verbatim_skip_frames_witness :
    ∃ t', getTask (apply_task 9 [⟨"a", "u", "old", some "d", 3, 4, none, 5⟩] "u"
        ⟨"a", "new", none, 1, 2, some 8, 6⟩) "a" = some t' ∧
      t'.title = "new" ∧ t'.description = none ∧ t'.created_at = 1 ∧
      t'.deleted_at = some 8 ∧ t'.client_updated_at = 6 ∧ t'.updated_at = 9 ∧
      t'.id = "a" ∧ t'.user_id = "u" :=
  (apply_overwrites_verbatim_skip_frames 9 [⟨"a", "u", "old", some "d", 3, 4, none, 5⟩]
    [] [] "u" ⟨"a", "new", none, 1, 2, some 8, 6⟩
    ⟨"e", "t", 0, none, none, 0, 0, none, 0⟩).1
    ⟨"a", "u", "old", some "d", 3, 4, none, 5⟩ (by decide) rfl (by decide)

/-- C10 (implicit): an accepted apply overwrites the stored `created_at` with
the payload's value verbatim, so a winning payload carrying a different
`created_at` changes the record's stored creation time. -/
theorem created_at_not_preserved (now : Nat) (db : List Task) (ts : List Task)
    (es : List TimeEntry) (uid : String) (p : TaskPayload) (q : TimeEntryPayload) :
    (∀ task, getTask db p.id = some task → task.user_id = uid →
      task.client_updated_at ≤ p.client_updated_at →
      p.created_at ≠ task.created_at →
      ∃ t', getTask (apply_task now db uid p) p.id = some t' ∧
        t'.created_at = p.created_at ∧ t'.created_at ≠ task.created_at) ∧
    (∀ entry, getTimeEntry es q.id = some entry → entry.user_id = uid →
      entry.client_updated_at ≤ q.client_updated_at →
      q.created_at ≠ entry.created_at →
      ∃ e', getTimeEntry (apply_time_entry now ts es uid q) q.id = some e' ∧
        e'.created_at = q.created_at ∧ e'.created_at ≠ entry.created_at) := by
  constructor
  · intro task h ho hs hne
    exact ⟨task_with_payload now p task, getTask_after_applies h ho hs, rfl, hne⟩
  · intro entry h ho hs hne
    exact ⟨entry_with_payload now q entry, getTimeEntry_after_applies h ho hs, rfl, hne⟩

/-- Witness for C10: a winning update rewrites `created_at` from 3 to 1. -/
theorem created_at_not_preserved_witness :
    ∃ t', getTask (apply_task 9 [⟨"a", "u", "old", none, 3, 4, none, 5⟩] "u"
        ⟨"a", "new", none, 1, 2, none, 6⟩) "a" = some t' ∧
      t'.created_at = 1 ∧ t'.created_at ≠ 3 :=
  (created_at_not_preserved 9 [⟨"a", "u", "old", none, 3, 4, none, 5⟩] [] [] "u"
    ⟨"a", "new", none, 1, 2, none, 6⟩ ⟨"e", "t", 0, none, none, 0, 0, none, 0⟩).1
    ⟨"a", "u", "old", none, 3, 4, none, 5⟩ (by decide) rfl (by decide) (by decide)

/-- C6 counterexample: an accepted later edit of an existing TimeEntry does
change its stored `task_id` — here from `"t1"` to `"t2"`, although no task
`"t2"` exists at all (the task table is empty), so the reference is not
re-validated either. This refutes "no later accepted edit changes the
`task_id` field of an existing TimeEntry". -/
theorem entry_task_ref_mutable_counterexample :
    (getTimeEntry [⟨"e", "u", "t1", 100, none, none, 1, 1, none, 5⟩] "e").map
        TimeEntry.task_id = some "t1" ∧
    (getTimeEntry (apply_time_entry 10 []
        [⟨"e", "u", "t1", 100, none, none, 1, 1, none, 5⟩] "u"
        ⟨"e", "t2", 100, none, none, 1, 1, none, 6⟩) "e").map
        TimeEntry.task_id = some "t2" ∧
    ("t2" : String) ≠ "t1" ∧ getTask [] "t2" = none := by
  decide

/-- C6 amended: the TimeEntry→Task reference is validated only at creation
time; a later accepted edit overwrites `task_id` verbatim from the payload
with no re-validation, so the parent reference can change after creation. -/
theorem entry_task_ref_validated_at_creation_only (now : Nat) (ts : List Task)
    (es : List TimeEntry) (uid : String) (q : TimeEntryPayload) :
    (∀ entry, getTimeEntry es q.id = some entry → entry.user_id = uid →
      entry.client_updated_at ≤ q.client_updated_at →
      ∃ e', getTimeEntry (apply_time_entry now ts es uid q) q.id = some e' ∧
        e'.task_id = q.task_id) ∧
    (getTimeEntry es q.id = none →
      (∀ task, getTask ts q.task_id = some task → task.user_id ≠ uid) →
      apply_time_entry now ts es uid q = es) := by
  constructor
  · intro entry h ho hs
    exact ⟨entry_with_payload now q entry, getTimeEntry_after_applies h ho hs, rfl⟩
  · intro habsent horphan
    cases ht : getTask ts q.task_id with
    | none => exact apply_entry_orphan_none habsent ht
    | some task => exact apply_entry_orphan_owner habsent ht (horphan task ht)

/-- Witness for the amended C6: the accepted edit stores `task_id = "t2"`
even though the task table is empty. -/
theorem entry_task_ref_validated_at_creation_only_witness :
    ∃ e', getTimeEntry (apply_time_entry 10 []
        [⟨"e", "u", "t1", 100, none, none, 1, 1, none, 5⟩] "u"
        ⟨"e", "t2", 100, none, none, 1, 1, none, 6⟩) "e" = some e' ∧
      e'.task_id = "t2" :=
  (entry_task_ref_validated_at_creation_only 10 []
    [⟨"e", "u", "t1", 100, none, none, 1, 1, none, 5⟩] "u"
    ⟨"e", "t2", 100, none, none, 1, 1, none, 6⟩).1
    ⟨"e", "u", "t1", 100, none, none, 1, 1, none, 5⟩ (by decide) rfl (by decide)

/-! ### Well-formedness (unique primary keys) is preserved by the appliers -/

theorem map_id_task_update (now : Nat) (p : TaskPayload) (db : List Task) :
    (db.map (fun t => if t.id == p.id then task_with_payload now p t else t)).map
        Task.id = db.map Task.id := by
  rw [List.map_map]
  exact List.map_congr_left fun t _ => task_update_id now p t

theorem map_id_entry_update (now : Nat) (p : TimeEntryPayload) (es : List TimeEntry) :
    (es.map (fun e => if e.id == p.id then entry_with_payload now p e else e)).map
        TimeEntry.id = es.map TimeEntry.id := by
  rw [List.map_map]
  exact List.map_congr_left fun e _ => entry_update_id now p e

theorem TasksWF_apply {now : Nat} {db : List Task} {uid : String}
    {p : TaskPayload} (hwf : TasksWF db) : TasksWF (apply_task now db uid p) := by
  cases h : getTask db p.id with
  | none =>
      rw [apply_task_create h]
      unfold TasksWF at *
      rw [List.map_append, List.nodup_append]
      refine ⟨hwf, List.nodup_singleton _, ?_⟩
      intro x hx hmem
      simp only [task_with_payload, init_task, List.map_cons, List.map_nil,
        List.mem_singleton] at hmem
      subst hmem
      obtain ⟨t, ht, hid⟩ := List.mem_map.mp hx
      exact getTask_eq_none.mp h t ht hid
  | some task =>
      by_cases ho : task.user_id = uid
      · by_cases hs : task.client_updated_at ≤ p.client_updated_at
        · rw [apply_task_applies h ho hs]
          unfold TasksWF at *
          rw [map_id_task_update]
          exact hwf
        · rw [apply_task_skip_stale h ho (by omega)]; exact hwf
      · rw [apply_task_skip_owner h ho]; exact hwf

theorem EntriesWF_apply {now : Nat} {ts : List Task} {es : List TimeEntry}
    {uid : String} {p : TimeEntryPayload} (hwf : EntriesWF es) :
    EntriesWF (apply_time_entry now ts es uid p) := by
  cases he : getTimeEntry es p.id with
  | none =>
      cases ht : getTask ts p.task_id with
      | none => rw [apply_entry_orphan_none he ht]; exact hwf
      | some task =>
          by_cases ho : task.user_id = uid
          · rw [apply_entry_create he ht ho]
            unfold EntriesWF at *
            rw [List.map_append, List.nodup_append]
            refine ⟨hwf, List.nodup_singleton _, ?_⟩
            intro x hx hmem
            simp only [entry_with_payload, init_entry, List.map_cons, List.map_nil,
              List.mem_singleton] at hmem
            subst hmem
            obtain ⟨e, het, hid⟩ := List.mem_map.mp hx
            exact getTimeEntry_eq_none.mp he e het hid
          · rw [apply_entry_orphan_owner he ht ho]; exact hwf
  | some entry =>
      by_cases ho : entry.user_id = uid
      · by_cases hs : entry.client_updated_at ≤ p.client_updated_at
        · rw [apply_entry_applies he ho hs]
          unfold EntriesWF at *
          rw [map_id_entry_update]
          exact hwf
        · rw [apply_entry_skip_stale he ho (by omega)]; exact hwf
      · rw [apply_entry_skip_owner he ho]; exact hwf

/-! ### Rows of other principals are untouched -/

theorem apply_task_filter_ne {now : Nat} {db : List Task} {uid : String}
    {p : TaskPayload} (hwf : TasksWF db) :
    (apply_task now db uid p).filter (fun t => !(t.user_id == uid)) =
      db.filter (fun t => !(t.user_id == uid)) := by
  cases h : getTask db p.id with
  | none =>
      rw [apply_task_create h, List.filter_append]
      simp [task_with_payload, init_task]
  | some task =>
      by_cases ho : task.user_id = uid
      · by_cases hs : task.client_updated_at ≤ p.client_updated_at
        · rw [apply_task_applies h ho hs, List.filter_map]
          have hpred : ((fun t : Task => !(t.user_id == uid)) ∘
              (fun t => if t.id == p.id then task_with_payload now p t else t)) =
              (fun t : Task => !(t.user_id == uid)) := by
            funext t
            by_cases hid : t.id == p.id <;> simp [Function.comp, hid, task_with_payload]
          rw [hpred]
          have hmapid : ∀ t ∈ db.filter (fun t : Task => !(t.user_id == uid)),
              (if t.id == p.id then task_with_payload now p t else t) = id t := by
            intro t hmem
            have htdb := (List.mem_filter.mp hmem).1
            have htne : t.user_id ≠ uid := by
              have := (List.mem_filter.mp hmem).2
              simpa using this
            have hid : ¬ (t.id == p.id) = true := by
              intro hbeq
              have hideq : t.id = p.id := by simpa using hbeq
              have heq : t = task :=
                List.inj_on_of_nodup_map hwf htdb (getTask_mem h)
                  (by rw [hideq, getTask_id h])
              rw [heq] at htne
              exact htne ho
            simp [hid]
          rw [List.map_congr_left hmapid, List.map_id]
        · rw [apply_task_skip_stale h ho (by omega)]
      · rw [apply_task_skip_owner h ho]

theorem apply_entry_filter_ne {now : Nat} {ts : List Task} {es : List TimeEntry}
    {uid : String} {p : TimeEntryPayload} (hwf : EntriesWF es) :
    (apply_time_entry now ts es uid p).filter (fun e => !(e.user_id == uid)) =
      es.filter (fun e => !(e.user_id == uid)) := by
  cases he : getTimeEntry es p.id with
  | none =>
      cases ht : getTask ts p.task_id with
      | none => rw [apply_entry_orphan_none he ht]
      | some task =>
          by_cases ho : task.user_id = uid
          · rw [apply_entry_create he ht ho, List.filter_append]
            simp [entry_with_payload, init_entry]
          · rw [apply_entry_orphan_owner he ht ho]
  | some entry =>
      by_cases ho : entry.user_id = uid
      · by_cases hs : entry.client_updated_at ≤ p.client_updated_at
        · rw [apply_entry_applies he ho hs, List.filter_map]
          have hpred : ((fun e : TimeEntry => !(e.user_id == uid)) ∘
              (fun e => if e.id == p.id then entry_with_payload now p e else e)) =
              (fun e : TimeEntry => !(e.user_id == uid)) := by
            funext e
            by_cases hid : e.id == p.id <;> simp [Function.comp, hid, entry_with_payload]
          rw [hpred]
          have hmapid : ∀ e ∈ es.filter (fun e : TimeEntry => !(e.user_id == uid)),
              (if e.id == p.id then entry_with_payload now p e else e) = id e := by
            intro e hmem
            have hedb := (List.mem_filter.mp hmem).1
            have hene : e.user_id ≠ uid := by
              have := (List.mem_filter.mp hmem).2
              simpa using this
            have hid : ¬ (e.id == p.id) = true := by
              intro hbeq
              have hideq : e.id = p.id := by simpa using hbeq
              have heq : e = entry :=
                List.inj_on_of_nodup_map hwf hedb (getTimeEntry_mem he)
                  (by rw [hideq, getTimeEntry_id he])
              rw [heq] at hene
              exact hene ho
            simp [hid]
          rw [List.map_congr_left hmapid, List.map_id]
        · rw [apply_entry_skip_stale he ho (by omega)]
      · rw [apply_entry_skip_owner he ho]

theorem foldl_apply_task_filter_ne {now : Nat} {uid : String}
    (cs : List (Change TaskPayload)) {db : List Task} (hwf : TasksWF db) :
    (cs.foldl (fun db c => apply_task now db uid c.data) db).filter
        (fun t => !(t.user_id == uid)) =
      db.filter (fun t => !(t.user_id == uid)) := by
  induction cs generalizing db with
  | nil => rfl
  | cons c rest ih =>
      rw [List.foldl_cons]
      rw [ih (TasksWF_apply hwf)]
      exact apply_task_filter_ne hwf

theorem foldl_apply_task_wf {now : Nat} {uid : String}
    (cs : List (Change TaskPayload)) {db : List Task} (hwf : TasksWF db) :
    TasksWF (cs.foldl (fun db c => apply_task now db uid c.data) db) := by
  induction cs generalizing db with
  | nil => exact hwf
  | cons c rest ih => exact ih (TasksWF_apply hwf)

theorem foldl_apply_entry_filter_ne {now : Nat} {uid : String} {ts : List Task}
    (cs : List (Change TimeEntryPayload)) {es : List TimeEntry} (hwf : EntriesWF es) :
    (cs.foldl (fun es c => apply_time_entry now ts es uid c.data) es).filter
        (fun e => !(e.user_id == uid)) =
      es.filter (fun e => !(e.user_id == uid)) := by
  induction cs generalizing es with
  | nil => rfl
  | cons c rest ih =>
      rw [List.foldl_cons]
      rw [ih (EntriesWF_apply hwf)]
      exact apply_entry_filter_ne hwf

theorem foldl_apply_entry_wf {now : Nat} {uid : String} {ts : List Task}
    (cs : List (Change TimeEntryPayload)) {es : List TimeEntry} (hwf : EntriesWF es) :
    EntriesWF (cs.foldl (fun es c => apply_time_entry now ts es uid c.data) es) := by
  induction cs generalizing es with
  | nil => exact hwf
  | cons c rest ih => exact ih (EntriesWF_apply hwf)

/-! ### The collapser: one winner per id, greatest revision, later wins ties -/

/-- Running "last wins among equals" maximum: the reduction a Python dict
slot undergoes as candidates for one key stream past it. -/
def arg_step {α : Type} (rev : α → Nat) (acc : Option α) (c : α) : Option α :=
  match acc with
  | none => some c
  | some b => if rev c ≥ rev b then some c else some b

/-- Lookup in the association list modelling the `latest` dict. -/
def alookup {α : Type} (acc : List (String × α)) (k : String) : Option α :=
  (acc.find? (fun kv => kv.1 == k)).map Prod.snd

theorem find?_fst_map {α β : Type} (acc : List (String × α))
    (g : String × α → String × β) (hfst : ∀ kv, (g kv).1 = kv.1) (k : String) :
    (acc.map g).find? (fun kv => kv.1 == k) =
      (acc.find? (fun kv => kv.1 == k)).map g := by
  have hp : ((fun kv : String × β => kv.1 == k) ∘ g) =
      (fun kv : String × α => kv.1 == k) :=
    funext fun kv => by simp [Function.comp, hfst]
  rw [List.find?_map, hp]

theorem collapse_step_alookup {α : Type} (key : α → String) (rev : α → Nat)
    (acc : List (String × α)) (c : α) (k : String) :
    alookup (collapse_step key rev acc c) k =
      if key c = k then arg_step rev (alookup acc k) c else alookup acc k := by
  unfold collapse_step
  cases hf : acc.find? (fun kv => kv.1 == key c) with
  | none =>
      by_cases hk : key c = k
      · subst hk
        simp [alookup, List.find?_append, hf, arg_step]
      · have hkb : ¬ ((key c == k) = true) := by simpa using hk
        simp [alookup, List.find?_append, hk, hkb, Option.or]
        cases acc.find? (fun kv => kv.1 == k) <;> rfl
  | some kv =>
      have hkv1 : kv.1 = key c := by simpa using List.find?_some hf
      dsimp only
      by_cases hrev : rev c ≥ rev kv.2
      · rw [if_pos hrev]
        have hfst : ∀ kv2 : String × α,
            ((if kv2.1 == key c then (kv2.1, c) else kv2) : String × α).1 = kv2.1 := by
          intro kv2
          by_cases h2 : kv2.1 == key c <;> simp [h2]
        by_cases hk : key c = k
        · subst hk
          rw [alookup, find?_fst_map _ _ hfst, hf]
          simp [alookup, hf, arg_step, hrev, hkv1]
        · rw [if_neg hk, alookup, find?_fst_map _ _ hfst]
          cases hf2 : acc.find? (fun kv => kv.1 == k) with
          | none => simp [alookup, hf2]
          | some kv' =>
              have hkv'1 : kv'.1 = k := by simpa using List.find?_some hf2
              have hne : kv'.1 ≠ key c := by
                rw [hkv'1]
                exact fun h' => hk h'.symm
              simp [alookup, hf2, hne]
      · rw [if_neg hrev]
        by_cases hk : key c = k
        · subst hk
          simp [alookup, hf, arg_step, hrev]
        · rw [if_neg hk]

theorem foldl_collapse_alookup {α : Type} (key : α → String) (rev : α → Nat)
    (l : List α) (acc : List (String × α)) (k : String) :
    alookup (l.foldl (collapse_step key rev) acc) k =
      (l.filter (fun c => key c == k)).foldl (arg_step rev) (alookup acc k) := by
  induction l generalizing acc with
  | nil => rfl
  | cons c rest ih =>
      rw [List.foldl_cons, ih, List.filter_cons]
      by_cases hk : key c = k
      · have hkb : (key c == k) = true := by simpa using hk
        rw [if_pos hkb, List.foldl_cons, collapse_step_alookup, if_pos hk]
      · have hkb : ¬ ((key c == k) = true) := by simpa using hk
        rw [if_neg hkb, collapse_step_alookup, if_neg hk]

/-- Invariant of the `latest` association list: keys are unique and each
stored change carries its own key. -/
def acc_ok {α : Type} (key : α → String) (acc : List (String × α)) : Prop :=
  (acc.map Prod.fst).Nodup ∧ ∀ kv ∈ acc, key kv.2 = kv.1

theorem collapse_step_acc_ok {α : Type} (key : α → String) (rev : α → Nat)
    {acc : List (String × α)} (h : acc_ok key acc) (c : α) :
    acc_ok key (collapse_step key rev acc c) := by
  unfold collapse_step
  cases hf : acc.find? (fun kv => kv.1 == key c) with
  | none =>
      refine ⟨?_, ?_⟩
      · rw [List.map_append, List.nodup_append]
        refine ⟨h.1, List.nodup_singleton _, ?_⟩
        intro x hx hmem
        simp only [List.map_cons, List.map_nil, List.mem_singleton] at hmem
        subst hmem
        obtain ⟨kv, hkv, hfst⟩ := List.mem_map.mp hx
        have := List.find?_eq_none.mp hf kv hkv
        simp [hfst] at this
      · intro kv hkv
        rcases List.mem_append.mp hkv with hl | hr
        · exact h.2 kv hl
        · simp only [List.mem_singleton] at hr
          subst hr
          rfl
  | some kv0 =>
      dsimp only
      by_cases hrev : rev c ≥ rev kv0.2
      · rw [if_pos hrev]
        have hfst : ∀ kv2 : String × α,
            ((if kv2.1 == key c then (kv2.1, c) else kv2) : String × α).1 = kv2.1 := by
          intro kv2
          by_cases h2 : kv2.1 == key c <;> simp [h2]
        refine ⟨?_, ?_⟩
        · rw [List.map_map]
          have : (Prod.fst ∘ fun kv2 : String × α =>
              if kv2.1 == key c then (kv2.1, c) else kv2) = Prod.fst :=
            funext fun kv2 => hfst kv2
          rw [this]
          exact h.1
        · intro kv hkv
          obtain ⟨kv2, hkv2, heq⟩ := List.mem_map.mp hkv
          by_cases h2 : (kv2.1 == key c) = true
          · rw [if_pos h2] at heq
            subst heq
            have h2' : kv2.1 = key c := by simpa using h2
            exact h2'.symm
          · rw [if_neg h2] at heq
            subst heq
            exact h.2 kv2 hkv2
      · rw [if_neg hrev]
        exact h

theorem collapse_step_keys {α : Type} (key : α → String) (rev : α → Nat)
    (acc : List (String × α)) (c : α) (k : String) :
    k ∈ (collapse_step key rev acc c).map Prod.fst ↔
      k ∈ acc.map Prod.fst ∨ k = key c := by
  unfold collapse_step
  cases hf : acc.find? (fun kv => kv.1 == key c) with
  | none => simp
  | some kv0 =>
      have hmem : key c ∈ acc.map Prod.fst := by
        have h1 : kv0.1 = key c := by simpa using List.find?_some hf
        exact List.mem_map.mpr ⟨kv0, List.mem_of_find?_eq_some hf, h1⟩
      dsimp only
      by_cases hrev : rev c ≥ rev kv0.2
      · rw [if_pos hrev]
        have hfst : ∀ kv2 : String × α,
            ((if kv2.1 == key c then (kv2.1, c) else kv2) : String × α).1 = kv2.1 := by
          intro kv2
          by_cases h2 : kv2.1 == key c <;> simp [h2]
        rw [List.map_map]
        have : (Prod.fst ∘ fun kv2 : String × α =>
            if kv2.1 == key c then (kv2.1, c) else kv2) = Prod.fst :=
          funext fun kv2 => hfst kv2
        rw [this]
        constructor
        · exact fun h => Or.inl h
        · rintro (h | rfl)
          · exact h
          · exact hmem
      · rw [if_neg hrev]
        constructor
        · exact fun h => Or.inl h
        · rintro (h | rfl)
          · exact h
          · exact hmem

theorem foldl_collapse_keys {α : Type} (key : α → String) (rev : α → Nat)
    (l : List α) (acc : List (String × α)) (k : String) :
    k ∈ (l.foldl (collapse_step key rev) acc).map Prod.fst ↔
      k ∈ acc.map Prod.fst ∨ k ∈ l.map key := by
  induction l generalizing acc with
  | nil => simp
  | cons c rest ih =>
      rw [List.foldl_cons, ih, collapse_step_keys]
      simp only [List.map_cons, List.mem_cons]
      tauto

theorem alookup_of_mem {α : Type} {acc : List (String × α)}
    (hnd : (acc.map Prod.fst).Nodup) {kv : String × α} (hkv : kv ∈ acc) :
    alookup acc kv.1 = some kv.2 := by
  induction acc with
  | nil => cases hkv
  | cons x rest ih =>
      rcases List.mem_cons.mp hkv with rfl | hr
      · simp [alookup]
      · have hx1 : x.1 ≠ kv.1 := by
          intro hcontra
          have : kv.1 ∈ rest.map Prod.fst := List.mem_map.mpr ⟨kv, hr, rfl⟩
          rw [← hcontra] at this
          exact (List.nodup_cons.mp (by simpa using hnd)).1 this
        have hxb : ¬ ((x.1 == kv.1) = true) := by simpa using hx1
        have hrest := ih (by simpa using (List.nodup_cons.mp (by simpa using hnd)).2) hr
        simpa [alookup, List.find?_cons, hxb] using hrest

theorem foldl_collapse_acc_ok {α : Type} (key : α → String) (rev : α → Nat)
    (l : List α) {acc : List (String × α)} (h : acc_ok key acc) :
    acc_ok key (l.foldl (collapse_step key rev) acc) := by
  induction l generalizing acc with
  | nil => exact h
  | cons c rest ih => exact ih (collapse_step_acc_ok key rev h c)

theorem collapse_ids_nodup {α : Type} (key : α → String) (rev : α → Nat)
    (l : List α) : ((collapse_changes key rev l).map key).Nodup := by
  have hwf : acc_ok key (l.foldl (collapse_step key rev) []) :=
    foldl_collapse_acc_ok key rev l ⟨List.nodup_nil, by intro kv h; cases h⟩
  have hkeys : (collapse_changes key rev l).map key =
      (l.foldl (collapse_step key rev) []).map Prod.fst := by
    rw [collapse_changes, List.map_map]
    exact List.map_congr_left fun kv hkv => hwf.2 kv hkv
  rw [hkeys]
  exact hwf.1

theorem arg_foldl_some {α : Type} (rev : α → Nat) (g : List α) (b : α) :
    ∃ m, g.foldl (arg_step rev) (some b) = some m := by
  induction g generalizing b with
  | nil => exact ⟨b, rfl⟩
  | cons c rest ih =>
      rw [List.foldl_cons]
      by_cases h : rev c ≥ rev b
      · rw [show arg_step rev (some b) c = some c by simp [arg_step, h]]
        exact ih c
      · rw [show arg_step rev (some b) c = some b by simp [arg_step, h]]
        exact ih b

theorem arg_foldl_char {α : Type} (rev : α → Nat) (g : List α) (m : α)
    (h : g.foldl (arg_step rev) none = some m) :
    ∃ i : Nat, g[i]? = some m ∧ ∀ (j : Nat) (y : α), g[j]? = some y →
      rev y ≤ rev m ∧ (rev y = rev m → j ≤ i) := by
  induction g using List.reverseRecOn generalizing m with
  | nil => cases h
  | append_singleton g' c ih =>
      rw [List.foldl_append] at h
      cases hprev : g'.foldl (arg_step rev) none with
      | none =>
          have hg' : g' = [] := by
            cases g' with
            | nil => rfl
            | cons x rest =>
                exfalso
                obtain ⟨m', hm'⟩ := arg_foldl_some rev rest x
                have hprev2 : rest.foldl (arg_step rev) (some x) = none := hprev
                rw [hm'] at hprev2
                cases hprev2
          subst hg'
          rw [hprev] at h
          have h2 : (some c : Option α) = some m := h
          have hmc : m = c := (Option.some_injective _ h2).symm
          subst hmc
          refine ⟨0, by simp, ?_⟩
          intro j y hj
          cases j with
          | zero =>
              simp at hj
              subst hj
              exact ⟨le_refl _, fun _ => le_refl _⟩
          | succ j' => simp at hj
      | some b =>
          rw [hprev] at h
          have h2 : (if rev c ≥ rev b then some c else some b) = some m := h
          clear h
          by_cases hrc : rev c ≥ rev b
          · rw [if_pos hrc] at h2
            have hmc : m = c := (Option.some_injective _ h2).symm
            subst hmc
            obtain ⟨i, hi, hall⟩ := ih b hprev
            refine ⟨g'.length, by simp, ?_⟩
            intro j y hj
            rw [List.getElem?_append] at hj
            by_cases hjl : j < g'.length
            · rw [if_pos hjl] at hj
              have := hall j y hj
              exact ⟨le_trans this.1 hrc, fun _ => by omega⟩
            · rw [if_neg hjl] at hj
              have hj0 : j - g'.length = 0 := by
                by_contra hne
                have : 1 ≤ j - g'.length := by omega
                rw [List.getElem?_eq_none (by simp; omega)] at hj
                cases hj
              rw [hj0] at hj
              simp at hj
              subst hj
              exact ⟨le_refl _, fun _ => by omega⟩
          · rw [if_neg hrc] at h2
            have hmb : m = b := (Option.some_injective _ h2).symm
            subst hmb
            obtain ⟨i, hi, hall⟩ := ih m hprev
            have hilen : i < g'.length := by
              by_contra hge
              rw [List.getElem?_eq_none (by omega)] at hi
              cases hi
            refine ⟨i, ?_, ?_⟩
            · rw [List.getElem?_append, if_pos hilen]
              exact hi
            · intro j y hj
              rw [List.getElem?_append] at hj
              by_cases hjl : j < g'.length
              · rw [if_pos hjl] at hj
                exact hall j y hj
              · rw [if_neg hjl] at hj
                have hj0 : j - g'.length = 0 := by
                  by_contra hne
                  rw [List.getElem?_eq_none (by simp; omega)] at hj
                  cases hj
                rw [hj0] at hj
                simp at hj
                subst hj
                refine ⟨by omega, fun habs => ?_⟩
                omega

/-- C3: the Change Collapser returns exactly one output change per distinct
record identifier of the input (its output keys are duplicate-free and are
exactly the input's keys), and each retained change occurs in its
identifier's group at a position `i` such that every group member has
revision ≤ the winner's and every member attaining the winner's revision
occurs at a position ≤ i — i.e. per identifier the entry with the greatest
client revision time wins, ties broken in favor of the later entry. -/
theorem collapse_retains_latest {α : Type} (key : α → String) (rev : α → Nat)
    (l : List α) :
    ((collapse_changes key rev l).map key).Nodup ∧
    (∀ k, k ∈ (collapse_changes key rev l).map key ↔ k ∈ l.map key) ∧
    (∀ c ∈ collapse_changes key rev l,
      ∃ i : Nat, (l.filter (fun x => key x == key c))[i]? = some c ∧
        ∀ (j : Nat) (y : α), (l.filter (fun x => key x == key c))[j]? = some y →
          rev y ≤ rev c ∧ (rev y = rev c → j ≤ i)) := by
  have hwf : acc_ok key (l.foldl (collapse_step key rev) []) :=
    foldl_collapse_acc_ok key rev l ⟨List.nodup_nil, by intro kv h; cases h⟩
  have hkeys : (collapse_changes key rev l).map key =
      (l.foldl (collapse_step key rev) []).map Prod.fst := by
    rw [collapse_changes, List.map_map]
    exact List.map_congr_left fun kv hkv => hwf.2 kv hkv
  refine ⟨?_, ?_, ?_⟩
  · rw [hkeys]
    exact hwf.1
  · intro k
    rw [hkeys, foldl_collapse_keys]
    simp
  · intro c hc
    obtain ⟨kv, hkv, hsnd⟩ := List.mem_map.mp hc
    have hlook : alookup (l.foldl (collapse_step key rev) []) kv.1 = some kv.2 :=
      alookup_of_mem hwf.1 hkv
    have hkey : kv.1 = key c := by
      rw [← hsnd]
      exact (hwf.2 kv hkv).symm
    rw [hkey, hsnd] at hlook
    rw [foldl_collapse_alookup] at hlook
    exact arg_foldl_char rev _ c hlook

/-- Witness for C3 on a concrete batch: ids `a, a, b, a` with revisions
`5, 7, 1, 7` — the winner of group `a` is the *later* revision-7 change. -/
theorem collapse_retains_latest_witness :
    ∃ i : Nat, ([⟨Op.upsert, ⟨"a", "x", none, 0, 0, none, 5⟩⟩,
        ⟨Op.upsert, ⟨"a", "y", none, 0, 0, none, 7⟩⟩,
        ⟨Op.delete, ⟨"b", "z", none, 0, 0, none, 1⟩⟩,
        ⟨Op.upsert, ⟨"a", "w", none, 0, 0, none, 7⟩⟩].filter
          (fun x : Change TaskPayload =>
            x.data.id == (Change.mk Op.upsert
              (TaskPayload.mk "a" "w" none 0 0 none 7)).data.id))[i]? =
        some ⟨Op.upsert, ⟨"a", "w", none, 0, 0, none, 7⟩⟩ ∧
      ∀ (j : Nat) (y : Change TaskPayload), ([⟨Op.upsert, ⟨"a", "x", none, 0, 0, none, 5⟩⟩,
        ⟨Op.upsert, ⟨"a", "y", none, 0, 0, none, 7⟩⟩,
        ⟨Op.delete, ⟨"b", "z", none, 0, 0, none, 1⟩⟩,
        ⟨Op.upsert, ⟨"a", "w", none, 0, 0, none, 7⟩⟩].filter
          (fun x : Change TaskPayload =>
            x.data.id == (Change.mk Op.upsert
              (TaskPayload.mk "a" "w" none 0 0 none 7)).data.id))[j]? = some y →
        y.data.client_updated_at ≤ 7 ∧ (y.data.client_updated_at = 7 → j ≤ i) :=
  (collapse_retains_latest (fun c : Change TaskPayload => c.data.id)
    (fun c : Change TaskPayload => c.data.client_updated_at)
    [⟨Op.upsert, ⟨"a", "x", none, 0, 0, none, 5⟩⟩,
     ⟨Op.upsert, ⟨"a", "y", none, 0, 0, none, 7⟩⟩,
     ⟨Op.delete, ⟨"b", "z", none, 0, 0, none, 1⟩⟩,
     ⟨Op.upsert, ⟨"a", "w", none, 0, 0, none, 7⟩⟩]).2.2
    ⟨Op.upsert, ⟨"a", "w", none, 0, 0, none, 7⟩⟩ (by decide)

/-! ### The collapser and the sync store depend only on the payload data -/

theorem collapse_step_map {α β : Type} (key : α → String) (rev : α → Nat)
    (key' : β → String) (rev' : β → Nat) (g : α → β)
    (hkey : ∀ c, key' (g c) = key c) (hrev : ∀ c, rev' (g c) = rev c)
    (acc : List (String × α)) (c : α) :
    collapse_step key' rev' (acc.map (Prod.map id g)) (g c) =
      (collapse_step key rev acc c).map (Prod.map id g) := by
  unfold collapse_step
  rw [hkey]
  rw [find?_fst_map acc (Prod.map id g) (fun kv => rfl)]
  cases hf : acc.find? (fun kv => kv.1 == key c) with
  | none =>
      dsimp only [Option.map_none']
      rw [List.map_append]
      rfl
  | some kv0 =>
      dsimp only [Option.map_some']
      rw [show (Prod.map id g kv0).2 = g kv0.2 from rfl, hrev, hrev]
      by_cases hc : rev c ≥ rev kv0.2
      · rw [if_pos hc, if_pos hc, List.map_map, List.map_map]
        apply List.map_congr_left
        intro kv2 hkv2
        by_cases h2 : (kv2.1 == key c) = true
        · simp [Function.comp, Prod.map, h2]
        · simp [Function.comp, Prod.map, h2]
      · rw [if_neg hc, if_neg hc]

theorem foldl_collapse_map {α β : Type} (key : α → String) (rev : α → Nat)
    (key' : β → String) (rev' : β → Nat) (g : α → β)
    (hkey : ∀ c, key' (g c) = key c) (hrev : ∀ c, rev' (g c) = rev c)
    (l : List α) (acc : List (String × α)) :
    (l.map g).foldl (collapse_step key' rev') (acc.map (Prod.map id g)) =
      (l.foldl (collapse_step key rev) acc).map (Prod.map id g) := by
  induction l generalizing acc with
  | nil => rfl
  | cons c rest ih =>
      rw [List.map_cons, List.foldl_cons, List.foldl_cons,
        collapse_step_map key rev key' rev' g hkey hrev]
      exact ih _

theorem collapse_changes_map {α β : Type} (key : α → String) (rev : α → Nat)
    (key' : β → String) (rev' : β → Nat) (g : α → β)
    (hkey : ∀ c, key' (g c) = key c) (hrev : ∀ c, rev' (g c) = rev c)
    (l : List α) :
    collapse_changes key' rev' (l.map g) = (collapse_changes key rev l).map g := by
  unfold collapse_changes
  have := foldl_collapse_map key rev key' rev' g hkey hrev l []
  simp only [List.map_nil] at this
  rw [this, List.map_map, List.map_map]
  apply List.map_congr_left
  intro kv hkv
  rfl

theorem foldl_apply_task_data (now : Nat) (uid : String)
    (cs : List (Change TaskPayload)) (db : List Task) :
    (collapse_changes (fun c => c.data.id) (fun c => c.data.client_updated_at)
        cs).foldl (fun db c => apply_task now db uid c.data) db =
      (collapse_changes (fun p : TaskPayload => p.id)
          (fun p => p.client_updated_at) (cs.map (fun c => c.data))).foldl
        (fun db p => apply_task now db uid p) db := by
  rw [collapse_changes_map (fun c : Change TaskPayload => c.data.id)
    (fun c => c.data.client_updated_at) (fun p : TaskPayload => p.id)
    (fun p => p.client_updated_at) (fun c => c.data) (fun c => rfl) (fun c => rfl)]
  rw [List.foldl_map]

theorem foldl_apply_entry_data (now : Nat) (uid : String) (ts : List Task)
    (cs : List (Change TimeEntryPayload)) (es : List TimeEntry) :
    (collapse_changes (fun c => c.data.id) (fun c => c.data.client_updated_at)
        cs).foldl (fun es c => apply_time_entry now ts es uid c.data) es =
      (collapse_changes (fun p : TimeEntryPayload => p.id)
          (fun p => p.client_updated_at) (cs.map (fun c => c.data))).foldl
        (fun es p => apply_time_entry now ts es uid p) es := by
  rw [collapse_changes_map (fun c : Change TimeEntryPayload => c.data.id)
    (fun c => c.data.client_updated_at) (fun p : TimeEntryPayload => p.id)
    (fun p => p.client_updated_at) (fun c => c.data) (fun c => rfl) (fun c => rfl)]
  rw [List.foldl_map]

/-! ### After the commit, the session folds equal the whole-table folds

Within one request the collapsed change ids are distinct, so no change ever
looks up a row that an earlier change of the same batch added as pending:
flushing the pending rows at the commit therefore yields exactly the
whole-table fold. (The one visibility difference that remains is the task
table the *entry* phase reads, which is `sync`'s persistent component.) -/

theorem foldl_task_session_combined {now : Nat} {uid : String}
    (cs : List (Change TaskPayload)) (db pen : List Task)
    (hnd : (cs.map (fun c => c.data.id)).Nodup)
    (hdisj : ∀ q ∈ cs, ∀ x ∈ pen, x.id ≠ q.data.id) :
    (cs.foldl (fun st c => task_step_session now uid st c.data) (db, pen)).1 ++
      (cs.foldl (fun st c => task_step_session now uid st c.data) (db, pen)).2 =
      cs.foldl (fun db c => apply_task now db uid c.data) (db ++ pen) := by
  induction cs generalizing db pen with
  | nil => rfl
  | cons c rest ih =>
      simp only [List.foldl_cons]
      simp only [List.map_cons, List.nodup_cons] at hnd
      have hpen_c : ∀ x ∈ pen, x.id ≠ c.data.id :=
        hdisj c (List.mem_cons_self c rest)
      have hrest_disj : ∀ q ∈ rest, ∀ x ∈ pen, x.id ≠ q.data.id :=
        fun q hq => hdisj q (List.mem_cons_of_mem c hq)
      cases h : getTask db c.data.id with
      | none =>
          have hcomb : getTask (db ++ pen) c.data.id = none := by
            rw [getTask_append, h, getTask_eq_none.mpr hpen_c]
            rfl
          rw [task_step_create h, apply_task_create hcomb, List.append_assoc]
          refine ih db (pen ++ [task_with_payload now c.data
            (init_task c.data.id uid)]) hnd.2 ?_
          intro q hq x hx
          rcases List.mem_append.mp hx with hxp | hxn
          · exact hrest_disj q hq x hxp
          · simp only [List.mem_singleton] at hxn
            subst hxn
            show c.data.id ≠ q.data.id
            intro heq
            exact hnd.1 (List.mem_map.mpr ⟨q, hq, heq.symm⟩)
      | some task =>
          have hcomb : getTask (db ++ pen) c.data.id = some task := by
            rw [getTask_append, h]
            rfl
          by_cases ho : task.user_id = uid
          · by_cases hs : task.client_updated_at ≤ c.data.client_updated_at
            · rw [task_step_applies h ho hs, apply_task_applies hcomb ho hs]
              have hmap : (db ++ pen).map
                  (fun t => if t.id == c.data.id
                    then task_with_payload now c.data t else t) =
                  db.map (fun t => if t.id == c.data.id
                    then task_with_payload now c.data t else t) ++ pen := by
                rw [List.map_append]
                congr 1
                have hid : ∀ x ∈ pen, (if x.id == c.data.id
                    then task_with_payload now c.data x else x) = id x := by
                  intro x hx
                  simp [hpen_c x hx]
                rw [List.map_congr_left hid, List.map_id]
              rw [hmap]
              exact ih _ pen hnd.2 hrest_disj
            · rw [task_step_skip_stale h ho (by omega),
                apply_task_skip_stale hcomb ho (by omega)]
              exact ih db pen hnd.2 hrest_disj
          · rw [task_step_skip_owner h ho, apply_task_skip_owner hcomb ho]
            exact ih db pen hnd.2 hrest_disj

theorem foldl_entry_session_combined {now : Nat} {uid : String} {ts : List Task}
    (cs : List (Change TimeEntryPayload)) (es pen : List TimeEntry)
    (hnd : (cs.map (fun c => c.data.id)).Nodup)
    (hdisj : ∀ q ∈ cs, ∀ x ∈ pen, x.id ≠ q.data.id) :
    (cs.foldl (fun st c => entry_step_session now uid ts st c.data) (es, pen)).1 ++
      (cs.foldl (fun st c => entry_step_session now uid ts st c.data) (es, pen)).2 =
      cs.foldl (fun es c => apply_time_entry now ts es uid c.data) (es ++ pen) := by
  induction cs generalizing es pen with
  | nil => rfl
  | cons c rest ih =>
      simp only [List.foldl_cons]
      simp only [List.map_cons, List.nodup_cons] at hnd
      have hpen_c : ∀ x ∈ pen, x.id ≠ c.data.id :=
        hdisj c (List.mem_cons_self c rest)
      have hrest_disj : ∀ q ∈ rest, ∀ x ∈ pen, x.id ≠ q.data.id :=
        fun q hq => hdisj q (List.mem_cons_of_mem c hq)
      cases he : getTimeEntry es c.data.id with
      | none =>
          have hcomb : getTimeEntry (es ++ pen) c.data.id = none := by
            rw [getTimeEntry_append, he, getTimeEntry_eq_none.mpr hpen_c]
            rfl
          cases ht : getTask ts c.data.task_id with
          | none =>
              rw [entry_step_orphan_none he ht, apply_entry_orphan_none hcomb ht]
              exact ih es pen hnd.2 hrest_disj
          | some task =>
              by_cases ho : task.user_id = uid
              · rw [entry_step_create he ht ho, apply_entry_create hcomb ht ho,
                  List.append_assoc]
                refine ih es (pen ++ [entry_with_payload now c.data
                  (init_entry c.data.id uid)]) hnd.2 ?_
                intro q hq x hx
                rcases List.mem_append.mp hx with hxp | hxn
                · exact hrest_disj q hq x hxp
                · simp only [List.mem_singleton] at hxn
                  subst hxn
                  show c.data.id ≠ q.data.id
                  intro heq
                  exact hnd.1 (List.mem_map.mpr ⟨q, hq, heq.symm⟩)
              · rw [entry_step_orphan_owner he ht ho,
                  apply_entry_orphan_owner hcomb ht ho]
                exact ih es pen hnd.2 hrest_disj
      | some entry =>
          have hcomb : getTimeEntry (es ++ pen) c.data.id = some entry := by
            rw [getTimeEntry_append, he]
            rfl
          by_cases ho : entry.user_id = uid
          · by_cases hs : entry.client_updated_at ≤ c.data.client_updated_at
            · rw [entry_step_applies he ho hs, apply_entry_applies hcomb ho hs]
              have hmap : (es ++ pen).map
                  (fun e => if e.id == c.data.id
                    then entry_with_payload now c.data e else e) =
                  es.map (fun e => if e.id == c.data.id
                    then entry_with_payload now c.data e else e) ++ pen := by
                rw [List.map_append]
                congr 1
                have hid : ∀ x ∈ pen, (if x.id == c.data.id
                    then entry_with_payload now c.data x else x) = id x := by
                  intro x hx
                  simp [hpen_c x hx]
                rw [List.map_congr_left hid, List.map_id]
              rw [hmap]
              exact ih _ pen hnd.2 hrest_disj
            · rw [entry_step_skip_stale he ho (by omega),
                apply_entry_skip_stale hcomb ho (by omega)]
              exact ih es pen hnd.2 hrest_disj
          · rw [entry_step_skip_owner he ho, apply_entry_skip_owner hcomb ho]
            exact ih es pen hnd.2 hrest_disj

theorem sync_tasks_session_combined (now : Nat) (db : List Task) (uid : String)
    (changes : List (Change TaskPayload)) :
    (sync_tasks_session now db uid changes).1 ++
      (sync_tasks_session now db uid changes).2 =
      sync_tasks now db uid changes := by
  have h := @foldl_task_session_combined now uid
    (collapse_changes (fun c : Change TaskPayload => c.data.id)
      (fun c => c.data.client_updated_at) changes) db []
    (collapse_ids_nodup _ _ _) (by intro q hq x hx; cases hx)
  simpa [sync_tasks_session, sync_tasks] using h

theorem sync_entries_session_combined (now : Nat) (ts : List Task)
    (es : List TimeEntry) (uid : String)
    (changes : List (Change TimeEntryPayload)) :
    (sync_entries_session now ts es uid changes).1 ++
      (sync_entries_session now ts es uid changes).2 =
      sync_entries now ts es uid changes := by
  have h := @foldl_entry_session_combined now uid ts
    (collapse_changes (fun c : Change TimeEntryPayload => c.data.id)
      (fun c => c.data.client_updated_at) changes) es []
    (collapse_ids_nodup _ _ _) (by intro q hq x hx; cases hx)
  simpa [sync_entries_session, sync_entries] using h

/-- C2: a sync request issued by principal `uid` leaves every Task and
TimeEntry row owned by any other principal untouched (the sub-list of rows
with a different owner is exactly preserved, fields and order included),
whatever identifiers the request supplies; and at the applier level a stored
record whose owner differs from the caller makes the change a discarded
no-op. Requires unique primary keys (`StoreWF`), the database's column
constraint. -/
theorem ownership_isolation (now : Nat) (store : Store) (uid : String)
    (req : SyncRequest) (hwf : StoreWF store) :
    ((sync now store uid req).1.tasks.filter (fun t => !(t.user_id == uid)) =
      store.tasks.filter (fun t => !(t.user_id == uid))) ∧
    ((sync now store uid req).1.time_entries.filter (fun e => !(e.user_id == uid)) =
      store.time_entries.filter (fun e => !(e.user_id == uid))) ∧
    (∀ db p task, getTask db p.id = some task → task.user_id ≠ uid →
      apply_task now db uid p = db) ∧
    (∀ ts es q entry, getTimeEntry es q.id = some entry → entry.user_id ≠ uid →
      apply_time_entry now ts es uid q = es) := by
  refine ⟨?_, ?_, fun db p task h ho => apply_task_skip_owner h ho,
    fun ts es q entry h ho => apply_entry_skip_owner h ho⟩
  · show (((sync_tasks_session now store.tasks uid req.changes.tasks).1 ++
        (sync_tasks_session now store.tasks uid req.changes.tasks).2).filter
        (fun t => !(t.user_id == uid))) =
      store.tasks.filter (fun t => !(t.user_id == uid))
    rw [sync_tasks_session_combined]
    exact foldl_apply_task_filter_ne _ hwf.1
  · show (((sync_entries_session now
        (sync_tasks_session now store.tasks uid req.changes.tasks).1
        store.time_entries uid req.changes.time_entries).1 ++
        (sync_entries_session now
        (sync_tasks_session now store.tasks uid req.changes.tasks).1
        store.time_entries uid req.changes.time_entries).2).filter
        (fun e => !(e.user_id == uid))) =
      store.time_entries.filter (fun e => !(e.user_id == uid))
    rw [sync_entries_session_combined]
    exact foldl_apply_entry_filter_ne _ hwf.2

/-- Witness for C2: principal `"u"` syncs a payload guessing the identifier
of a task and of a time entry owned by `"v"`; both of `"v"`'s rows survive
verbatim, and the applier-level no-ops hold at those rows. -/
theorem ownership_isolation_witness :
    ((sync 10 ⟨[⟨"a", "v", "V task", none, 1, 2, none, 5⟩],
        [⟨"e", "v", "a", 50, none, none, 1, 2, none, 5⟩]⟩ "u"
        ⟨none, ⟨[⟨Op.upsert, ⟨"a", "stolen", none, 1, 2, none, 99⟩⟩],
          [⟨Op.upsert, ⟨"e", "a", 60, none, none, 1, 2, none, 99⟩⟩]⟩⟩).1.tasks.filter
        (fun t => !(t.user_id == "u")) =
      [⟨"a", "v", "V task", none, 1, 2, none, 5⟩].filter
        (fun t => !(t.user_id == "u"))) ∧
    ((sync 10 ⟨[⟨"a", "v", "V task", none, 1, 2, none, 5⟩],
        [⟨"e", "v", "a", 50, none, none, 1, 2, none, 5⟩]⟩ "u"
        ⟨none, ⟨[⟨Op.upsert, ⟨"a", "stolen", none, 1, 2, none, 99⟩⟩],
          [⟨Op.upsert, ⟨"e", "a", 60, none, none, 1, 2, none, 99⟩⟩]⟩⟩).1.time_entries.filter
        (fun e => !(e.user_id == "u")) =
      [⟨"e", "v", "a", 50, none, none, 1, 2, none, 5⟩].filter
        (fun e => !(e.user_id == "u"))) ∧
    (∀ db p task, getTask db p.id = some task → task.user_id ≠ "u" →
      apply_task 10 db "u" p = db) ∧
    (∀ ts es q entry, getTimeEntry es q.id = some entry → entry.user_id ≠ "u" →
      apply_time_entry 10 ts es "u" q = es) :=
  ownership_isolation 10 ⟨[⟨"a", "v", "V task", none, 1, 2, none, 5⟩],
    [⟨"e", "v", "a", 50, none, none, 1, 2, none, 5⟩]⟩ "u"
    ⟨none, ⟨[⟨Op.upsert, ⟨"a", "stolen", none, 1, 2, none, 99⟩⟩],
      [⟨Op.upsert, ⟨"e", "a", 60, none, none, 1, 2, none, 99⟩⟩]⟩⟩
    (by refine ⟨?_, ?_⟩ <;> simp [TasksWF, EntriesWF])

theorem foldl_task_session_data (now : Nat) (uid : String)
    (cs : List (Change TaskPayload)) (st : List Task × List Task) :
    (collapse_changes (fun c => c.data.id) (fun c => c.data.client_updated_at)
        cs).foldl (fun st c => task_step_session now uid st c.data) st =
      (collapse_changes (fun p : TaskPayload => p.id)
          (fun p => p.client_updated_at) (cs.map (fun c => c.data))).foldl
        (fun st p => task_step_session now uid st p) st := by
  rw [collapse_changes_map (fun c : Change TaskPayload => c.data.id)
    (fun c => c.data.client_updated_at) (fun p : TaskPayload => p.id)
    (fun p => p.client_updated_at) (fun c => c.data) (fun c => rfl) (fun c => rfl)]
  rw [List.foldl_map]

theorem foldl_entry_session_data (now : Nat) (uid : String) (ts : List Task)
    (cs : List (Change TimeEntryPayload)) (st : List TimeEntry × List TimeEntry) :
    (collapse_changes (fun c => c.data.id) (fun c => c.data.client_updated_at)
        cs).foldl (fun st c => entry_step_session now uid ts st c.data) st =
      (collapse_changes (fun p : TimeEntryPayload => p.id)
          (fun p => p.client_updated_at) (cs.map (fun c => c.data))).foldl
        (fun st p => entry_step_session now uid ts st p) st := by
  rw [collapse_changes_map (fun c : Change TimeEntryPayload => c.data.id)
    (fun c => c.data.client_updated_at) (fun p : TimeEntryPayload => p.id)
    (fun p => p.client_updated_at) (fun c => c.data) (fun c => rfl) (fun c => rfl)]
  rw [List.foldl_map]

/-- C9: the `op` tag of a change is not load-bearing: two sync requests that
agree on the watermark and on every change's payload data, but may disagree
on any of the `"upsert"`/`"delete"` op tags, produce the same resulting
store and the same response. Deletion is expressed solely by the payload's
`deleted_at` field, which the applier copies verbatim. -/
theorem op_tag_not_load_bearing (now : Nat) (store : Store) (uid : String)
    (r1 r2 : SyncRequest) (hw : r1.last_sync_at = r2.last_sync_at)
    (ht : r1.changes.tasks.map (fun c => c.data) =
      r2.changes.tasks.map (fun c => c.data))
    (he : r1.changes.time_entries.map (fun c => c.data) =
      r2.changes.time_entries.map (fun c => c.data)) :
    sync now store uid r1 = sync now store uid r2 := by
  rw [sync_def, sync_def, hw]
  have htasks : sync_tasks_session now store.tasks uid r1.changes.tasks =
      sync_tasks_session now store.tasks uid r2.changes.tasks := by
    unfold sync_tasks_session
    rw [foldl_task_session_data, foldl_task_session_data, ht]
  rw [htasks]
  have hentries : ∀ ts, sync_entries_session now ts store.time_entries uid
        r1.changes.time_entries =
      sync_entries_session now ts store.time_entries uid r2.changes.time_entries := by
    intro ts
    unfold sync_entries_session
    rw [foldl_entry_session_data, foldl_entry_session_data, he]
  rw [hentries]

/-- Witness for C9: the same payload sent once under op `"upsert"` and once
under op `"delete"` yields identical sync results. -/
theorem op_tag_not_load_bearing_witness :
    sync 10 ⟨[⟨"a", "u", "old", none, 1, 2, none, 4⟩], []⟩ "u"
        ⟨some 0, ⟨[⟨Op.upsert, ⟨"a", "new", none, 1, 2, some 9, 5⟩⟩],
          [⟨Op.upsert, ⟨"e", "a", 3, none, none, 1, 2, none, 5⟩⟩]⟩⟩ =
      sync 10 ⟨[⟨"a", "u", "old", none, 1, 2, none, 4⟩], []⟩ "u"
        ⟨some 0, ⟨[⟨Op.delete, ⟨"a", "new", none, 1, 2, some 9, 5⟩⟩],
          [⟨Op.delete, ⟨"e", "a", 3, none, none, 1, 2, none, 5⟩⟩]⟩⟩ :=
  op_tag_not_load_bearing 10 ⟨[⟨"a", "u", "old", none, 1, 2, none, 4⟩], []⟩ "u"
    ⟨some 0, ⟨[⟨Op.upsert, ⟨"a", "new", none, 1, 2, some 9, 5⟩⟩],
      [⟨Op.upsert, ⟨"e", "a", 3, none, none, 1, 2, none, 5⟩⟩]⟩⟩
    ⟨some 0, ⟨[⟨Op.delete, ⟨"a", "new", none, 1, 2, some 9, 5⟩⟩],
      [⟨Op.delete, ⟨"e", "a", 3, none, none, 1, 2, none, 5⟩⟩]⟩⟩
    rfl rfl rfl

/-! ### The outgoing delta -/

theorem in_watermark_iff (w : Option Nat) (u : Nat) :
    in_watermark w u = true ↔ wmOk w u := by
  cases w with
  | none =>
      simp [in_watermark, wmOk]
  | some x =>
      simp only [in_watermark, decide_eq_true_eq, wmOk]
      constructor
      · intro h y hy
        cases hy
        exact h
      · intro h
        exact h x rfl

/-- C4: the response delta is exactly the set of Task and TimeEntry records
owned by the caller whose `updated_at` passes the `last_sync_at` watermark
(every record passes when the watermark is null — tombstones included, since
`deleted_at` is never consulted), computed on the post-apply store, so
records modified by this very request (`updated_at = now`) are included
whenever the watermark does not exceed the server time. -/
theorem sync_delta_exact (now : Nat) (store : Store) (uid : String)
    (req : SyncRequest) :
    (∀ p ∈ (sync now store uid req).2.tasks,
      ∃ t ∈ (sync now store uid req).1.tasks, t.user_id = uid ∧
        wmOk req.last_sync_at t.updated_at ∧ p = task_to_payload t) ∧
    (∀ t ∈ (sync now store uid req).1.tasks, t.user_id = uid →
      wmOk req.last_sync_at t.updated_at →
      task_to_payload t ∈ (sync now store uid req).2.tasks) ∧
    (∀ q ∈ (sync now store uid req).2.time_entries,
      ∃ e ∈ (sync now store uid req).1.time_entries, e.user_id = uid ∧
        wmOk req.last_sync_at e.updated_at ∧ q = entry_to_payload e) ∧
    (∀ e ∈ (sync now store uid req).1.time_entries, e.user_id = uid →
      wmOk req.last_sync_at e.updated_at →
      entry_to_payload e ∈ (sync now store uid req).2.time_entries) ∧
    (∀ t ∈ (sync now store uid req).1.tasks, t.user_id = uid →
      t.updated_at = now → wmOk req.last_sync_at now →
      task_to_payload t ∈ (sync now store uid req).2.tasks) ∧
    (∀ e ∈ (sync now store uid req).1.time_entries, e.user_id = uid →
      e.updated_at = now → wmOk req.last_sync_at now →
      entry_to_payload e ∈ (sync now store uid req).2.time_entries) := by
  rw [sync_def]
  dsimp only
  refine ⟨?_, ?_, ?_, ?_, ?_, ?_⟩
  · intro p hp
    obtain ⟨t, htf, hpt⟩ := List.mem_map.mp hp
    obtain ⟨htmem, hpred⟩ := List.mem_filter.mp htf
    rw [Bool.and_eq_true] at hpred
    exact ⟨t, htmem, by simpa using hpred.1,
      (in_watermark_iff _ _).mp hpred.2, hpt.symm⟩
  · intro t htmem huid hwm
    exact List.mem_map.mpr ⟨t, List.mem_filter.mpr ⟨htmem, by
      rw [Bool.and_eq_true]
      exact ⟨by simpa using huid, (in_watermark_iff _ _).mpr hwm⟩⟩, rfl⟩
  · intro q hq
    obtain ⟨e, hef, hqe⟩ := List.mem_map.mp hq
    obtain ⟨hemem, hpred⟩ := List.mem_filter.mp hef
    rw [Bool.and_eq_true] at hpred
    exact ⟨e, hemem, by simpa using hpred.1,
      (in_watermark_iff _ _).mp hpred.2, hqe.symm⟩
  · intro e hemem huid hwm
    exact List.mem_map.mpr ⟨e, List.mem_filter.mpr ⟨hemem, by
      rw [Bool.and_eq_true]
      exact ⟨by simpa using huid, (in_watermark_iff _ _).mpr hwm⟩⟩, rfl⟩
  · intro t htmem huid hupd hwm
    refine List.mem_map.mpr ⟨t, List.mem_filter.mpr ⟨htmem, by
      rw [Bool.and_eq_true]
      refine ⟨by simpa using huid, (in_watermark_iff _ _).mpr ?_⟩
      rw [hupd]
      exact hwm⟩, rfl⟩
  · intro e hemem huid hupd hwm
    refine List.mem_map.mpr ⟨e, List.mem_filter.mpr ⟨hemem, by
      rw [Bool.and_eq_true]
      refine ⟨by simpa using huid, (in_watermark_iff _ _).mpr ?_⟩
      rw [hupd]
      exact hwm⟩, rfl⟩

/-- Witness for C4: with a null watermark the caller's tombstoned task (the
store holds a deleted and a live task of `"u"` plus a foreign one) is in the
response of an empty-change sync, as is the live one; the tombstone
hypothesis instance is discharged at `deleted_at = some 3`. -/
theorem sync_delta_exact_witness :
    task_to_payload ⟨"dead", "u", "gone", none, 1, 2, some 3, 2⟩ ∈
      (sync 10 ⟨[⟨"dead", "u", "gone", none, 1, 2, some 3, 2⟩,
        ⟨"live", "u", "here", none, 1, 5, none, 5⟩,
        ⟨"other", "v", "theirs", none, 1, 9, none, 9⟩], []⟩ "u"
        ⟨none, ⟨[], []⟩⟩).2.tasks :=
  (sync_delta_exact 10 ⟨[⟨"dead", "u", "gone", none, 1, 2, some 3, 2⟩,
      ⟨"live", "u", "here", none, 1, 5, none, 5⟩,
      ⟨"other", "v", "theirs", none, 1, 9, none, 9⟩], []⟩ "u"
    ⟨none, ⟨[], []⟩⟩).2.1
    ⟨"dead", "u", "gone", none, 1, 2, some 3, 2⟩ (by decide) rfl
    (by intro x hx; cases hx)

/-! ### Idempotence: replaying a request only re-stamps `updated_at` -/

/-- Forget the server-stamped modification time of a task row. -/
def eraseTask (t : Task) : Task := { t with updated_at := 0 }

/-- Forget the server-stamped modification time of a time-entry row. -/
def eraseEntry (e : TimeEntry) : TimeEntry := { e with updated_at := 0 }

/-- Forget the `updated_at` field of an outgoing task payload. -/
def eraseTaskPayload (p : TaskPayload) : TaskPayload := { p with updated_at := 0 }

/-- Forget the `updated_at` field of an outgoing entry payload. -/
def eraseEntryPayload (p : TimeEntryPayload) : TimeEntryPayload :=
  { p with updated_at := 0 }

/-- How a task row may evolve between the first and second application of the
same request: identical up to `updated_at`, which either did not move or was
re-stamped from `n1` to `n2`. -/
def taskRel (n1 n2 : Nat) (t t' : Task) : Prop :=
  eraseTask t' = eraseTask t ∧
    (t'.updated_at = t.updated_at ∨ (t.updated_at = n1 ∧ t'.updated_at = n2))

/-- `taskRel` for time-entry rows. -/
def entryRel (n1 n2 : Nat) (e e' : TimeEntry) : Prop :=
  eraseEntry e' = eraseEntry e ∧
    (e'.updated_at = e.updated_at ∨ (e.updated_at = n1 ∧ e'.updated_at = n2))

/-- A stored task row already carries the payload's mutable fields. -/
def taskMatches (p : TaskPayload) (t : Task) : Prop :=
  t.title = p.title ∧ t.description = p.description ∧
  t.created_at = p.created_at ∧ t.deleted_at = p.deleted_at ∧
  t.client_updated_at = p.client_updated_at

/-- A stored entry row already carries the payload's mutable fields. -/
def entryMatches (p : TimeEntryPayload) (e : TimeEntry) : Prop :=
  e.task_id = p.task_id ∧ e.started_at = p.started_at ∧
  e.stopped_at = p.stopped_at ∧ e.comment = p.comment ∧
  e.created_at = p.created_at ∧ e.deleted_at = p.deleted_at ∧
  e.client_updated_at = p.client_updated_at

/-- The referenced task is absent or foreign. -/
def orphanTask (ts : List Task) (k : String) (uid : String) : Prop :=
  ∀ t, getTask ts k = some t → t.user_id ≠ uid

/-- State of the task table after a payload has been applied once at server
time `n1`: the row with the payload's id exists, is the unique such row, and
re-applying the payload would be skipped (foreign owner or strictly newer
stored revision) or would rewrite the very same field values. -/
def TaskInv (n1 : Nat) (uid : String) (db : List Task) (p : TaskPayload) : Prop :=
  ∃ t, getTask db p.id = some t ∧ (∀ x ∈ db, x.id = p.id → x = t) ∧
    (t.user_id ≠ uid ∨ p.client_updated_at < t.client_updated_at ∨
     (t.user_id = uid ∧ taskMatches p t ∧ t.updated_at = n1))

/-- Entry-table analogue of `TaskInv`; the absent case survives only for
orphan payloads, which were skipped. -/
def EntryInv (n1 : Nat) (uid : String) (ts : List Task) (es : List TimeEntry)
    (p : TimeEntryPayload) : Prop :=
  (getTimeEntry es p.id = none ∧ orphanTask ts p.task_id uid) ∨
  (∃ e, getTimeEntry es p.id = some e ∧ (∀ x ∈ es, x.id = p.id → x = e) ∧
    (e.user_id ≠ uid ∨ p.client_updated_at < e.client_updated_at ∨
     (e.user_id = uid ∧ entryMatches p e ∧ e.updated_at = n1)))

theorem taskInv_establish {now : Nat} {db : List Task} {uid : String}
    {p : TaskPayload} (hwf : TasksWF db) :
    TaskInv now uid (apply_task now db uid p) p := by
  cases h : getTask db p.id with
  | none =>
      rw [apply_task_create h]
      refine ⟨task_with_payload now p (init_task p.id uid), ?_, ?_, ?_⟩
      · rw [getTask_append, h]
        simp [getTask, task_with_payload, init_task]
      · intro x hx hid
        rcases List.mem_append.mp hx with hl | hr
        · exact absurd hid (getTask_eq_none.mp h x hl)
        · simpa using hr
      · exact Or.inr (Or.inr ⟨rfl, ⟨rfl, rfl, rfl, rfl, rfl⟩, rfl⟩)
  | some task =>
      have huniq : ∀ x ∈ db, x.id = p.id → x = task := by
        intro x hx hid
        exact List.inj_on_of_nodup_map hwf hx (getTask_mem h)
          (by rw [hid, getTask_id h])
      by_cases ho : task.user_id = uid
      · by_cases hs : task.client_updated_at ≤ p.client_updated_at
        · rw [apply_task_applies h ho hs]
          refine ⟨task_with_payload now p task, ?_, ?_, ?_⟩
          · have h2 : getTask (apply_task now db uid p) p.id =
                some (task_with_payload now p task) := getTask_after_applies h ho hs
            rwa [apply_task_applies h ho hs] at h2
          · intro x hx hid
            obtain ⟨y, hy, hyx⟩ := List.mem_map.mp hx
            have hyid : y.id = p.id := by
              rw [← hid, ← hyx]
              exact (task_update_id now p y).symm
            have hyt : y = task := huniq y hy hyid
            rw [← hyx, hyt]
            simp [getTask_id h]
          · exact Or.inr (Or.inr ⟨ho, ⟨rfl, rfl, rfl, rfl, rfl⟩, rfl⟩)
        · rw [apply_task_skip_stale h ho (by omega)]
          exact ⟨task, h, huniq, Or.inr (Or.inl (by omega))⟩
      · rw [apply_task_skip_owner h ho]
        exact ⟨task, h, huniq, Or.inl ho⟩

theorem entryInv_establish {now : Nat} {ts : List Task} {es : List TimeEntry}
    {uid : String} {p : TimeEntryPayload} (hwf : EntriesWF es) :
    EntryInv now uid ts (apply_time_entry now ts es uid p) p := by
  cases he : getTimeEntry es p.id with
  | none =>
      cases ht : getTask ts p.task_id with
      | none =>
          rw [apply_entry_orphan_none he ht]
          exact Or.inl ⟨he, fun t h' => absurd h' (by rw [ht]; intro h''; cases h'')⟩
      | some task =>
          by_cases ho : task.user_id = uid
          · rw [apply_entry_create he ht ho]
            refine Or.inr ⟨entry_with_payload now p (init_entry p.id uid), ?_, ?_, ?_⟩
            · rw [getTimeEntry_append, he]
              simp [getTimeEntry, entry_with_payload, init_entry]
            · intro x hx hid
              rcases List.mem_append.mp hx with hl | hr
              · exact absurd hid (getTimeEntry_eq_none.mp he x hl)
              · simpa using hr
            · exact Or.inr (Or.inr ⟨rfl, ⟨rfl, rfl, rfl, rfl, rfl, rfl, rfl⟩, rfl⟩)
          · rw [apply_entry_orphan_owner he ht ho]
            refine Or.inl ⟨he, ?_⟩
            intro t h'
            rw [ht] at h'
            cases h'
            exact ho
  | some entry =>
      have huniq : ∀ x ∈ es, x.id = p.id → x = entry := by
        intro x hx hid
        exact List.inj_on_of_nodup_map hwf hx (getTimeEntry_mem he)
          (by rw [hid, getTimeEntry_id he])
      by_cases ho : entry.user_id = uid
      · by_cases hs : entry.client_updated_at ≤ p.client_updated_at
        · rw [apply_entry_applies he ho hs]
          refine Or.inr ⟨entry_with_payload now p entry, ?_, ?_, ?_⟩
          · have h2 : getTimeEntry (apply_time_entry now ts es uid p) p.id =
                some (entry_with_payload now p entry) :=
              getTimeEntry_after_applies he ho hs
            rwa [apply_entry_applies he ho hs] at h2
          · intro x hx hid
            obtain ⟨y, hy, hyx⟩ := List.mem_map.mp hx
            have hyid : y.id = p.id := by
              rw [← hid, ← hyx]
              exact (entry_update_id now p y).symm
            have hyt : y = entry := huniq y hy hyid
            rw [← hyx, hyt]
            simp [getTimeEntry_id he]
          · exact Or.inr (Or.inr ⟨ho, ⟨rfl, rfl, rfl, rfl, rfl, rfl, rfl⟩, rfl⟩)
        · rw [apply_entry_skip_stale he ho (by omega)]
          exact Or.inr ⟨entry, he, huniq, Or.inr (Or.inl (by omega))⟩
      · rw [apply_entry_skip_owner he ho]
        exact Or.inr ⟨entry, he, huniq, Or.inl ho⟩

theorem taskInv_preserve {n1 m : Nat} {uid uid' : String} {db : List Task}
    {p q : TaskPayload} (hne : q.id ≠ p.id) (hinv : TaskInv n1 uid db p) :
    TaskInv n1 uid (apply_task m db uid' q) p := by
  obtain ⟨t, hget, huniq, hdisj⟩ := hinv
  cases h : getTask db q.id with
  | none =>
      rw [apply_task_create h]
      refine ⟨t, ?_, ?_, hdisj⟩
      · rw [getTask_append, hget]
        rfl
      · intro x hx hid
        rcases List.mem_append.mp hx with hl | hr
        · exact huniq x hl hid
        · exfalso
          simp only [List.mem_singleton] at hr
          subst hr
          exact hne (by simpa [task_with_payload, init_task] using hid)
  | some task =>
      by_cases ho : task.user_id = uid'
      · by_cases hs : task.client_updated_at ≤ q.client_updated_at
        · rw [apply_task_applies h ho hs]
          have hg : ∀ y : Task, y.id = p.id →
              (if y.id == q.id then task_with_payload m q y else y) = y := by
            intro y hy
            have : ¬ ((y.id == q.id) = true) := by
              simp [hy]
              exact fun h' => hne h'.symm
            rw [if_neg this]
          refine ⟨t, ?_, ?_, hdisj⟩
          · rw [getTask_map (task_update_id m q), hget]
            have htid : t.id ≠ q.id := by
              rw [getTask_id hget]
              exact fun h' => hne h'.symm
            simp [htid]
          · intro x hx hid
            obtain ⟨y, hy, hyx⟩ := List.mem_map.mp hx
            have hyid : y.id = p.id := by
              rw [← hid, ← hyx]
              exact (task_update_id m q y).symm
            rw [← hyx, hg y hyid]
            exact huniq y hy hyid
        · rw [apply_task_skip_stale h ho (by omega)]
          exact ⟨t, hget, huniq, hdisj⟩
      · rw [apply_task_skip_owner h ho]
        exact ⟨t, hget, huniq, hdisj⟩

theorem entryInv_preserve {n1 m : Nat} {uid uid' : String} {ts ts' : List Task}
    {es : List TimeEntry} {p q : TimeEntryPayload} (hne : q.id ≠ p.id)
    (hinv : EntryInv n1 uid ts es p) :
    EntryInv n1 uid ts (apply_time_entry m ts' es uid' q) p := by
  rcases hinv with ⟨habs, horph⟩ | ⟨e, hget, huniq, hdisj⟩
  · left
    refine ⟨?_, horph⟩
    cases he : getTimeEntry es q.id with
    | none =>
        cases ht : getTask ts' q.task_id with
        | none => rw [apply_entry_orphan_none he ht]; exact habs
        | some task =>
            by_cases ho : task.user_id = uid'
            · rw [apply_entry_create he ht ho, getTimeEntry_append, habs]
              have : ¬ ((q.id == p.id) = true) := by simpa using hne
              simp [getTimeEntry, entry_with_payload, init_entry, this]
            · rw [apply_entry_orphan_owner he ht ho]; exact habs
    | some entry =>
        by_cases ho : entry.user_id = uid'
        · by_cases hs : entry.client_updated_at ≤ q.client_updated_at
          · rw [apply_entry_applies he ho hs,
              getTimeEntry_map (entry_update_id m q), habs]
            rfl
          · rw [apply_entry_skip_stale he ho (by omega)]; exact habs
        · rw [apply_entry_skip_owner he ho]; exact habs
  · right
    cases he : getTimeEntry es q.id with
    | none =>
        cases ht : getTask ts' q.task_id with
        | none => rw [apply_entry_orphan_none he ht]; exact ⟨e, hget, huniq, hdisj⟩
        | some task =>
            by_cases ho : task.user_id = uid'
            · rw [apply_entry_create he ht ho]
              refine ⟨e, ?_, ?_, hdisj⟩
              · rw [getTimeEntry_append, hget]
                rfl
              · intro x hx hid
                rcases List.mem_append.mp hx with hl | hr
                · exact huniq x hl hid
                · exfalso
                  simp only [List.mem_singleton] at hr
                  subst hr
                  exact hne (by simpa [entry_with_payload, init_entry] using hid)
            · rw [apply_entry_orphan_owner he ht ho]
              exact ⟨e, hget, huniq, hdisj⟩
    | some entry =>
        by_cases ho : entry.user_id = uid'
        · by_cases hs : entry.client_updated_at ≤ q.client_updated_at
          · rw [apply_entry_applies he ho hs]
            have hg : ∀ y : TimeEntry, y.id = p.id →
                (if y.id == q.id then entry_with_payload m q y else y) = y := by
              intro y hy
              have : ¬ ((y.id == q.id) = true) := by
                simp [hy]
                exact fun h' => hne h'.symm
              rw [if_neg this]
            refine ⟨e, ?_, ?_, hdisj⟩
            · rw [getTimeEntry_map (entry_update_id m q), hget]
              have heid : e.id ≠ q.id := by
                rw [getTimeEntry_id hget]
                exact fun h' => hne h'.symm
              simp [heid]
            · intro x hx hid
              obtain ⟨y, hy, hyx⟩ := List.mem_map.mp hx
              have hyid : y.id = p.id := by
                rw [← hid, ← hyx]
                exact (entry_update_id m q y).symm
              rw [← hyx, hg y hyid]
              exact huniq y hy hyid
          · rw [apply_entry_skip_stale he ho (by omega)]
            exact ⟨e, hget, huniq, hdisj⟩
        · rw [apply_entry_skip_owner he ho]
          exact ⟨e, hget, huniq, hdisj⟩

theorem eraseTask_id (t : Task) : (eraseTask t).id = t.id := rfl

theorem eraseEntry_id (e : TimeEntry) : (eraseEntry e).id = e.id := rfl

theorem orphanTask_of_erase_eq {ts ts' : List Task} {k uid : String}
    (heq : ts'.map eraseTask = ts.map eraseTask) (h : orphanTask ts k uid) :
    orphanTask ts' k uid := by
  intro t' hget'
  have h1 : getTask (ts'.map eraseTask) k = (getTask ts' k).map eraseTask :=
    getTask_map eraseTask_id k
  have h2 : getTask (ts.map eraseTask) k = (getTask ts k).map eraseTask :=
    getTask_map eraseTask_id k
  rw [heq, h2, hget'] at h1
  cases hget : getTask ts k with
  | none => rw [hget] at h1; cases h1
  | some t =>
      rw [hget] at h1
      have herase : eraseTask t = eraseTask t' := by
        simpa using h1
      have huser : t'.user_id = t.user_id := by
        have := congrArg Task.user_id herase
        simpa [eraseTask] using this.symm
      rw [huser]
      exact h t hget

theorem entryInv_swap_tasks {n1 : Nat} {uid : String} {ts ts' : List Task}
    {es : List TimeEntry} {p : TimeEntryPayload}
    (heq : ts'.map eraseTask = ts.map eraseTask)
    (hinv : EntryInv n1 uid ts es p) : EntryInv n1 uid ts' es p := by
  rcases hinv with ⟨habs, horph⟩ | hex
  · exact Or.inl ⟨habs, orphanTask_of_erase_eq heq horph⟩
  · exact Or.inr hex

theorem forall₂_refl_of {α : Type} {R : α → α → Prop} (hR : ∀ a, R a a)
    (l : List α) : List.Forall₂ R l l :=
  List.forall₂_same.mpr (fun x _ => hR x)

theorem forall₂_trans_of {α : Type} {R : α → α → Prop}
    (hR : ∀ a b c, R a b → R b c → R a c) :
    ∀ {l1 l2 l3 : List α}, List.Forall₂ R l1 l2 → List.Forall₂ R l2 l3 →
      List.Forall₂ R l1 l3 := by
  intro l1 l2 l3 h12 h23
  induction h12 generalizing l3 with
  | nil => cases h23; exact List.Forall₂.nil
  | cons hab h' ih =>
      cases h23 with
      | cons hbc h'' => exact List.Forall₂.cons (hR _ _ _ hab hbc) (ih h'')

theorem forall₂_map_self {α : Type} {R : α → α → Prop} {l : List α}
    {f : α → α} (h : ∀ x ∈ l, R x (f x)) : List.Forall₂ R l (l.map f) := by
  induction l with
  | nil => exact List.Forall₂.nil
  | cons x rest ih =>
      exact List.Forall₂.cons (h x (List.mem_cons_self x rest))
        (ih fun y hy => h y (List.mem_cons_of_mem x hy))

theorem taskRel_refl (n1 n2 : Nat) (t : Task) : taskRel n1 n2 t t :=
  ⟨rfl, Or.inl rfl⟩

theorem entryRel_refl (n1 n2 : Nat) (e : TimeEntry) : entryRel n1 n2 e e :=
  ⟨rfl, Or.inl rfl⟩

theorem taskRel_trans {n1 n2 : Nat} {a b c : Task} (h1 : taskRel n1 n2 a b)
    (h2 : taskRel n1 n2 b c) : taskRel n1 n2 a c := by
  refine ⟨h2.1.trans h1.1, ?_⟩
  rcases h1.2 with he1 | ⟨ha1, hb1⟩ <;> rcases h2.2 with he2 | ⟨hb2, hc2⟩
  · exact Or.inl (he2.trans he1)
  · exact Or.inr ⟨he1 ▸ hb2, hc2⟩
  · exact Or.inr ⟨ha1, he2.symm ▸ hb1⟩
  · exact Or.inr ⟨ha1, hc2⟩

theorem entryRel_trans {n1 n2 : Nat} {a b c : TimeEntry}
    (h1 : entryRel n1 n2 a b) (h2 : entryRel n1 n2 b c) : entryRel n1 n2 a c := by
  refine ⟨h2.1.trans h1.1, ?_⟩
  rcases h1.2 with he1 | ⟨ha1, hb1⟩ <;> rcases h2.2 with he2 | ⟨hb2, hc2⟩
  · exact Or.inl (he2.trans he1)
  · exact Or.inr ⟨he1 ▸ hb2, hc2⟩
  · exact Or.inr ⟨ha1, he2.symm ▸ hb1⟩
  · exact Or.inr ⟨ha1, hc2⟩

theorem taskInv_noop {n1 n2 : Nat} {uid : String} {db : List Task}
    {p : TaskPayload} (hinv : TaskInv n1 uid db p) :
    List.Forall₂ (taskRel n1 n2) db (apply_task n2 db uid p) := by
  obtain ⟨t, hget, huniq, hdisj⟩ := hinv
  rcases hdisj with ho | hstale | ⟨ho, hm, hupd⟩
  · rw [apply_task_skip_owner hget ho]
    exact forall₂_refl_of (taskRel_refl n1 n2) db
  · by_cases ho : t.user_id = uid
    · rw [apply_task_skip_stale hget ho hstale]
      exact forall₂_refl_of (taskRel_refl n1 n2) db
    · rw [apply_task_skip_owner hget ho]
      exact forall₂_refl_of (taskRel_refl n1 n2) db
  · have hs : t.client_updated_at ≤ p.client_updated_at := le_of_eq hm.2.2.2.2
    rw [apply_task_applies hget ho hs]
    apply forall₂_map_self
    intro x hx
    by_cases hid : (x.id == p.id) = true
    · have hxid : x.id = p.id := by simpa using hid
      have hxt : x = t := huniq x hx hxid
      subst hxt
      rw [if_pos hid]
      refine ⟨?_, Or.inr ⟨hupd, rfl⟩⟩
      simp [eraseTask, task_with_payload, hm.1, hm.2.1, hm.2.2.1,
        hm.2.2.2.1, hm.2.2.2.2]
    · rw [if_neg hid]
      exact taskRel_refl n1 n2 x

theorem entryInv_noop {n1 n2 : Nat} {uid : String} {ts : List Task}
    {es : List TimeEntry} {p : TimeEntryPayload}
    (hinv : EntryInv n1 uid ts es p) :
    List.Forall₂ (entryRel n1 n2) es (apply_time_entry n2 ts es uid p) := by
  rcases hinv with ⟨habs, horph⟩ | ⟨e, hget, huniq, hdisj⟩
  · cases ht : getTask ts p.task_id with
    | none =>
        rw [apply_entry_orphan_none habs ht]
        exact forall₂_refl_of (entryRel_refl n1 n2) es
    | some task =>
        rw [apply_entry_orphan_owner habs ht (horph task ht)]
        exact forall₂_refl_of (entryRel_refl n1 n2) es
  · rcases hdisj with ho | hstale | ⟨ho, hm, hupd⟩
    · rw [apply_entry_skip_owner hget ho]
      exact forall₂_refl_of (entryRel_refl n1 n2) es
    · by_cases ho : e.user_id = uid
      · rw [apply_entry_skip_stale hget ho hstale]
        exact forall₂_refl_of (entryRel_refl n1 n2) es
      · rw [apply_entry_skip_owner hget ho]
        exact forall₂_refl_of (entryRel_refl n1 n2) es
    · have hs : e.client_updated_at ≤ p.client_updated_at :=
        le_of_eq hm.2.2.2.2.2.2
      rw [apply_entry_applies hget ho hs]
      apply forall₂_map_self
      intro x hx
      by_cases hid : (x.id == p.id) = true
      · have hxid : x.id = p.id := by simpa using hid
        have hxe : x = e := huniq x hx hxid
        subst hxe
        rw [if_pos hid]
        refine ⟨?_, Or.inr ⟨hupd, rfl⟩⟩
        simp [eraseEntry, entry_with_payload, hm.1, hm.2.1, hm.2.2.1,
          hm.2.2.2.1, hm.2.2.2.2.1, hm.2.2.2.2.2.1, hm.2.2.2.2.2.2]
      · rw [if_neg hid]
        exact entryRel_refl n1 n2 x

theorem taskInv_foldl_preserve {n1 m : Nat} {uid : String} {p : TaskPayload}
    (cs : List (Change TaskPayload)) {db : List Task}
    (hne : ∀ q ∈ cs, q.data.id ≠ p.id) (hinv : TaskInv n1 uid db p) :
    TaskInv n1 uid (cs.foldl (fun db c => apply_task m db uid c.data) db) p := by
  induction cs generalizing db with
  | nil => exact hinv
  | cons c rest ih =>
      rw [List.foldl_cons]
      exact ih (fun q hq => hne q (List.mem_cons_of_mem c hq))
        (taskInv_preserve (hne c (List.mem_cons_self c rest)) hinv)

theorem entryInv_foldl_preserve {n1 m : Nat} {uid : String} {ts ts' : List Task}
    {p : TimeEntryPayload} (cs : List (Change TimeEntryPayload))
    {es : List TimeEntry} (hne : ∀ q ∈ cs, q.data.id ≠ p.id)
    (hinv : EntryInv n1 uid ts es p) :
    EntryInv n1 uid ts
      (cs.foldl (fun es c => apply_time_entry m ts' es uid c.data) es) p := by
  induction cs generalizing es with
  | nil => exact hinv
  | cons c rest ih =>
      rw [List.foldl_cons]
      exact ih (fun q hq => hne q (List.mem_cons_of_mem c hq))
        (entryInv_preserve (hne c (List.mem_cons_self c rest)) hinv)

theorem taskInv_foldl_establish {now : Nat} {uid : String}
    (cs : List (Change TaskPayload)) {db : List Task} (hwf : TasksWF db)
    (hnd : (cs.map (fun c => c.data.id)).Nodup) :
    ∀ c ∈ cs, TaskInv now uid
      (cs.foldl (fun db c => apply_task now db uid c.data) db) c.data := by
  induction cs generalizing db with
  | nil => intro c hc; cases hc
  | cons c rest ih =>
      intro c' hc'
      rw [List.foldl_cons]
      simp only [List.map_cons, List.nodup_cons] at hnd
      rcases List.mem_cons.mp hc' with rfl | hr
      · refine taskInv_foldl_preserve rest ?_ (taskInv_establish hwf)
        intro q hq heq
        exact hnd.1 (List.mem_map.mpr ⟨q, hq, heq⟩)
      · exact ih (TasksWF_apply hwf) hnd.2 c' hr

theorem entryInv_foldl_establish {now : Nat} {uid : String} {ts : List Task}
    (cs : List (Change TimeEntryPayload)) {es : List TimeEntry}
    (hwf : EntriesWF es) (hnd : (cs.map (fun c => c.data.id)).Nodup) :
    ∀ c ∈ cs, EntryInv now uid ts
      (cs.foldl (fun es c => apply_time_entry now ts es uid c.data) es) c.data := by
  induction cs generalizing es with
  | nil => intro c hc; cases hc
  | cons c rest ih =>
      intro c' hc'
      rw [List.foldl_cons]
      simp only [List.map_cons, List.nodup_cons] at hnd
      rcases List.mem_cons.mp hc' with rfl | hr
      · refine entryInv_foldl_preserve rest ?_ (entryInv_establish hwf)
        intro q hq heq
        exact hnd.1 (List.mem_map.mpr ⟨q, hq, heq⟩)
      · exact ih (EntriesWF_apply hwf) hnd.2 c' hr

theorem taskInv_foldl_noop {n1 n2 : Nat} {uid : String}
    (cs : List (Change TaskPayload)) {db : List Task}
    (hnd : (cs.map (fun c => c.data.id)).Nodup)
    (hall : ∀ c ∈ cs, TaskInv n1 uid db c.data) :
    List.Forall₂ (taskRel n1 n2) db
      (cs.foldl (fun db c => apply_task n2 db uid c.data) db) := by
  induction cs generalizing db with
  | nil => exact forall₂_refl_of (taskRel_refl n1 n2) db
  | cons c rest ih =>
      rw [List.foldl_cons]
      simp only [List.map_cons, List.nodup_cons] at hnd
      have h1 : List.Forall₂ (taskRel n1 n2) db (apply_task n2 db uid c.data) :=
        taskInv_noop (hall c (List.mem_cons_self c rest))
      have hall' : ∀ c' ∈ rest,
          TaskInv n1 uid (apply_task n2 db uid c.data) c'.data := by
        intro c' hc'
        refine taskInv_preserve ?_ (hall c' (List.mem_cons_of_mem c hc'))
        intro heq
        exact hnd.1 (List.mem_map.mpr ⟨c', hc', heq.symm⟩)
      exact forall₂_trans_of (fun a b c h1' h2' => @taskRel_trans n1 n2 a b c h1' h2') h1 (ih hnd.2 hall')

theorem entryInv_foldl_noop {n1 n2 : Nat} {uid : String} {ts : List Task}
    (cs : List (Change TimeEntryPayload)) {es : List TimeEntry}
    (hnd : (cs.map (fun c => c.data.id)).Nodup)
    (hall : ∀ c ∈ cs, EntryInv n1 uid ts es c.data) :
    List.Forall₂ (entryRel n1 n2) es
      (cs.foldl (fun es c => apply_time_entry n2 ts es uid c.data) es) := by
  induction cs generalizing es with
  | nil => exact forall₂_refl_of (entryRel_refl n1 n2) es
  | cons c rest ih =>
      rw [List.foldl_cons]
      simp only [List.map_cons, List.nodup_cons] at hnd
      have h1 : List.Forall₂ (entryRel n1 n2) es
          (apply_time_entry n2 ts es uid c.data) :=
        entryInv_noop (hall c (List.mem_cons_self c rest))
      have hall' : ∀ c' ∈ rest,
          EntryInv n1 uid ts (apply_time_entry n2 ts es uid c.data) c'.data := by
        intro c' hc'
        refine entryInv_preserve ?_ (hall c' (List.mem_cons_of_mem c hc'))
        intro heq
        exact hnd.1 (List.mem_map.mpr ⟨c', hc', heq.symm⟩)
      exact forall₂_trans_of (fun a b c h1' h2' => @entryRel_trans n1 n2 a b c h1' h2') h1 (ih hnd.2 hall')

theorem forall₂_taskRel_erase {n1 n2 : Nat} {l1 l2 : List Task}
    (h : List.Forall₂ (taskRel n1 n2) l1 l2) :
    l2.map eraseTask = l1.map eraseTask := by
  induction h with
  | nil => rfl
  | cons hab h' ih => simp [ih, hab.1]

theorem forall₂_entryRel_erase {n1 n2 : Nat} {l1 l2 : List TimeEntry}
    (h : List.Forall₂ (entryRel n1 n2) l1 l2) :
    l2.map eraseEntry = l1.map eraseEntry := by
  induction h with
  | nil => rfl
  | cons hab h' ih => simp [ih, hab.1]

theorem taskRel_filter_map {n1 n2 : Nat} {uid : String} {w : Option Nat}
    {l1 l2 : List Task} (h : List.Forall₂ (taskRel n1 n2) l1 l2)
    (hw1 : wmOk w n1) (hw2 : wmOk w n2) :
    ((l2.filter (fun t => t.user_id == uid && in_watermark w t.updated_at)).map
      (fun t => eraseTaskPayload (task_to_payload t))) =
    ((l1.filter (fun t => t.user_id == uid && in_watermark w t.updated_at)).map
      (fun t => eraseTaskPayload (task_to_payload t))) := by
  induction h with
  | nil => rfl
  | @cons a b tl1 tl2 hab htl ih =>
      rw [List.filter_cons, List.filter_cons]
      have huser0 : (eraseTask b).user_id = (eraseTask a).user_id :=
        congrArg Task.user_id hab.1
      have huser : b.user_id = a.user_id := huser0
      have hpred : (b.user_id == uid && in_watermark w b.updated_at) =
          (a.user_id == uid && in_watermark w a.updated_at) := by
        rw [huser]
        rcases hab.2 with hu | ⟨ha, hb⟩
        · rw [hu]
        · rw [ha, hb, (in_watermark_iff w n1).mpr hw1, (in_watermark_iff w n2).mpr hw2]
      rw [hpred]
      by_cases hp : (a.user_id == uid && in_watermark w a.updated_at) = true
      · rw [if_pos hp, if_pos hp]
        simp only [List.map_cons]
        rw [ih]
        have hhead : eraseTaskPayload (task_to_payload b) =
            eraseTaskPayload (task_to_payload a) := by
          have h1 : eraseTaskPayload (task_to_payload b) =
              task_to_payload (eraseTask b) := rfl
          have h2 : eraseTaskPayload (task_to_payload a) =
              task_to_payload (eraseTask a) := rfl
          rw [h1, h2, hab.1]
        rw [hhead]
      · rw [if_neg hp, if_neg hp]
        exact ih

theorem entryRel_filter_map {n1 n2 : Nat} {uid : String} {w : Option Nat}
    {l1 l2 : List TimeEntry} (h : List.Forall₂ (entryRel n1 n2) l1 l2)
    (hw1 : wmOk w n1) (hw2 : wmOk w n2) :
    ((l2.filter (fun e => e.user_id == uid && in_watermark w e.updated_at)).map
      (fun e => eraseEntryPayload (entry_to_payload e))) =
    ((l1.filter (fun e => e.user_id == uid && in_watermark w e.updated_at)).map
      (fun e => eraseEntryPayload (entry_to_payload e))) := by
  induction h with
  | nil => rfl
  | @cons a b tl1 tl2 hab htl ih =>
      rw [List.filter_cons, List.filter_cons]
      have huser0 : (eraseEntry b).user_id = (eraseEntry a).user_id :=
        congrArg TimeEntry.user_id hab.1
      have huser : b.user_id = a.user_id := huser0
      have hpred : (b.user_id == uid && in_watermark w b.updated_at) =
          (a.user_id == uid && in_watermark w a.updated_at) := by
        rw [huser]
        rcases hab.2 with hu | ⟨ha, hb⟩
        · rw [hu]
        · rw [ha, hb, (in_watermark_iff w n1).mpr hw1, (in_watermark_iff w n2).mpr hw2]
      rw [hpred]
      by_cases hp : (a.user_id == uid && in_watermark w a.updated_at) = true
      · rw [if_pos hp, if_pos hp]
        simp only [List.map_cons]
        rw [ih]
        have hhead : eraseEntryPayload (entry_to_payload b) =
            eraseEntryPayload (entry_to_payload a) := by
          have h1 : eraseEntryPayload (entry_to_payload b) =
              entry_to_payload (eraseEntry b) := rfl
          have h2 : eraseEntryPayload (entry_to_payload a) =
              entry_to_payload (eraseEntry a) := rfl
          rw [h1, h2, hab.1]
        rw [hhead]
      · rw [if_neg hp, if_neg hp]
        exact ih

/-- The spec-intended `sync_spec` (entry phase sees same-batch tasks) *is*
idempotent: replaying the identical request against the store it produced
changes, up to the server-stamped `updated_at`, no stored row and no
outgoing payload — the property C8 asserts. The code's `sync` violates it
(`sync_replay_not_idempotent` below): the missing flush makes a same-batch
task invisible to the entry phase, so the replay creates a record the first
pass dropped. Hypotheses: unique primary keys, and the watermark (when
present) at most either server clock — always true of a watermark obtained
from a previous response's `server_time`. -/
theorem sync_spec_idempotent (now1 now2 : Nat) (store : Store) (uid : String)
    (req : SyncRequest) (hwf : StoreWF store)
    (hw1 : wmOk req.last_sync_at now1) (hw2 : wmOk req.last_sync_at now2) :
    ((sync_spec now2 (sync_spec now1 store uid req).1 uid req).1.tasks.map eraseTask =
      (sync_spec now1 store uid req).1.tasks.map eraseTask) ∧
    ((sync_spec now2 (sync_spec now1 store uid req).1 uid req).1.time_entries.map
        eraseEntry =
      (sync_spec now1 store uid req).1.time_entries.map eraseEntry) ∧
    ((sync_spec now2 (sync_spec now1 store uid req).1 uid req).2.tasks.map
        eraseTaskPayload =
      (sync_spec now1 store uid req).2.tasks.map eraseTaskPayload) ∧
    ((sync_spec now2 (sync_spec now1 store uid req).1 uid req).2.time_entries.map
        eraseEntryPayload =
      (sync_spec now1 store uid req).2.time_entries.map eraseEntryPayload) := by
  have hndT : ((collapse_changes (fun c : Change TaskPayload => c.data.id)
      (fun c => c.data.client_updated_at) req.changes.tasks).map
      (fun c => c.data.id)).Nodup := collapse_ids_nodup _ _ _
  have hndE : ((collapse_changes (fun c : Change TimeEntryPayload => c.data.id)
      (fun c => c.data.client_updated_at) req.changes.time_entries).map
      (fun c => c.data.id)).Nodup := collapse_ids_nodup _ _ _
  have hinvT : ∀ c ∈ collapse_changes (fun c : Change TaskPayload => c.data.id)
      (fun c => c.data.client_updated_at) req.changes.tasks,
      TaskInv now1 uid (sync_tasks now1 store.tasks uid req.changes.tasks)
        c.data :=
    taskInv_foldl_establish _ hwf.1 hndT
  have hFt : List.Forall₂ (taskRel now1 now2)
      (sync_tasks now1 store.tasks uid req.changes.tasks)
      (sync_tasks now2 (sync_tasks now1 store.tasks uid req.changes.tasks) uid
        req.changes.tasks) :=
    taskInv_foldl_noop _ hndT hinvT
  have hEt : (sync_tasks now2 (sync_tasks now1 store.tasks uid req.changes.tasks)
        uid req.changes.tasks).map eraseTask =
      (sync_tasks now1 store.tasks uid req.changes.tasks).map eraseTask :=
    forall₂_taskRel_erase hFt
  have hinvE : ∀ c ∈ collapse_changes
      (fun c : Change TimeEntryPayload => c.data.id)
      (fun c => c.data.client_updated_at) req.changes.time_entries,
      EntryInv now1 uid (sync_tasks now1 store.tasks uid req.changes.tasks)
        (sync_entries now1 (sync_tasks now1 store.tasks uid req.changes.tasks)
          store.time_entries uid req.changes.time_entries) c.data :=
    entryInv_foldl_establish _ hwf.2 hndE
  have hinvE2 : ∀ c ∈ collapse_changes
      (fun c : Change TimeEntryPayload => c.data.id)
      (fun c => c.data.client_updated_at) req.changes.time_entries,
      EntryInv now1 uid
        (sync_tasks now2 (sync_tasks now1 store.tasks uid req.changes.tasks) uid
          req.changes.tasks)
        (sync_entries now1 (sync_tasks now1 store.tasks uid req.changes.tasks)
          store.time_entries uid req.changes.time_entries) c.data :=
    fun c hc => entryInv_swap_tasks hEt (hinvE c hc)
  have hFe : List.Forall₂ (entryRel now1 now2)
      (sync_entries now1 (sync_tasks now1 store.tasks uid req.changes.tasks)
        store.time_entries uid req.changes.time_entries)
      (sync_entries now2
        (sync_tasks now2 (sync_tasks now1 store.tasks uid req.changes.tasks) uid
          req.changes.tasks)
        (sync_entries now1 (sync_tasks now1 store.tasks uid req.changes.tasks)
          store.time_entries uid req.changes.time_entries)
        uid req.changes.time_entries) :=
    entryInv_foldl_noop _ hndE hinvE2
  have hEe := forall₂_entryRel_erase hFe
  refine ⟨hEt, hEe, ?_, ?_⟩
  · show (((sync_tasks now2
        (sync_tasks now1 store.tasks uid req.changes.tasks) uid
        req.changes.tasks).filter
        (fun t => t.user_id == uid &&
          in_watermark req.last_sync_at t.updated_at)).map task_to_payload).map
        eraseTaskPayload =
      (((sync_tasks now1 store.tasks uid req.changes.tasks).filter
        (fun t => t.user_id == uid &&
          in_watermark req.last_sync_at t.updated_at)).map task_to_payload).map
        eraseTaskPayload
    rw [List.map_map, List.map_map]
    exact taskRel_filter_map hFt hw1 hw2
  · show (((sync_entries now2
        (sync_tasks now2 (sync_tasks now1 store.tasks uid req.changes.tasks) uid
          req.changes.tasks)
        (sync_entries now1 (sync_tasks now1 store.tasks uid req.changes.tasks)
          store.time_entries uid req.changes.time_entries)
        uid req.changes.time_entries).filter
        (fun e => e.user_id == uid &&
          in_watermark req.last_sync_at e.updated_at)).map entry_to_payload).map
        eraseEntryPayload =
      (((sync_entries now1 (sync_tasks now1 store.tasks uid req.changes.tasks)
          store.time_entries uid req.changes.time_entries).filter
        (fun e => e.user_id == uid &&
          in_watermark req.last_sync_at e.updated_at)).map entry_to_payload).map
        eraseEntryPayload
    rw [List.map_map, List.map_map]
    exact entryRel_filter_map hFe hw1 hw2


/-- C8 as the code behaves (the code bug): a request that creates task
`"b"` and an entry `"e"` under it in the same batch, against an empty
store. The first sync stores the task but silently drops the entry — the
pending task is invisible to `db.get` with `autoflush=False` — and the
*replay* of the identical request then creates the entry: a brand-new
record, and a response that differs from the first well beyond
`updated_at`. This contradicts both the claim and the spec's own
assumptions (§4.3 step 2, §5 read-your-writes), so the code, not the
claim, is at fault. -/
theorem sync_replay_not_idempotent :
    ((sync 10 ⟨[], []⟩ "u"
        ⟨none, ⟨[⟨Op.upsert, ⟨"b", "fresh", none, 1, 2, none, 6⟩⟩],
          [⟨Op.upsert, ⟨"e", "b", 7, none, none, 1, 2, none, 6⟩⟩]⟩⟩).1.tasks.length
      = 1) ∧
    ((sync 10 ⟨[], []⟩ "u"
        ⟨none, ⟨[⟨Op.upsert, ⟨"b", "fresh", none, 1, 2, none, 6⟩⟩],
          [⟨Op.upsert, ⟨"e", "b", 7, none, none, 1, 2, none, 6⟩⟩]⟩⟩).1.time_entries
      = []) ∧
    ((sync 20 (sync 10 ⟨[], []⟩ "u"
        ⟨none, ⟨[⟨Op.upsert, ⟨"b", "fresh", none, 1, 2, none, 6⟩⟩],
          [⟨Op.upsert, ⟨"e", "b", 7, none, none, 1, 2, none, 6⟩⟩]⟩⟩).1 "u"
        ⟨none, ⟨[⟨Op.upsert, ⟨"b", "fresh", none, 1, 2, none, 6⟩⟩],
          [⟨Op.upsert, ⟨"e", "b", 7, none, none, 1, 2, none, 6⟩⟩]⟩⟩).1.time_entries.length
      = 1) ∧
    ((sync 20 (sync 10 ⟨[], []⟩ "u"
        ⟨none, ⟨[⟨Op.upsert, ⟨"b", "fresh", none, 1, 2, none, 6⟩⟩],
          [⟨Op.upsert, ⟨"e", "b", 7, none, none, 1, 2, none, 6⟩⟩]⟩⟩).1 "u"
        ⟨none, ⟨[⟨Op.upsert, ⟨"b", "fresh", none, 1, 2, none, 6⟩⟩],
          [⟨Op.upsert, ⟨"e", "b", 7, none, none, 1, 2, none, 6⟩⟩]⟩⟩).2.time_entries.map
        eraseEntryPayload ≠
      (sync 10 ⟨[], []⟩ "u"
        ⟨none, ⟨[⟨Op.upsert, ⟨"b", "fresh", none, 1, 2, none, 6⟩⟩],
          [⟨Op.upsert, ⟨"e", "b", 7, none, none, 1, 2, none, 6⟩⟩]⟩⟩).2.time_entries.map
        eraseEntryPayload) := by
  decide

end TimeCheck
